import Mathlib

/-!
# Verification of `cellpose/dynamics.py` against its specification

A shallow embedding of the flow-based mask encode/decode pipeline of
`cellpose/dynamics.py` (diffusion flow encoder, geodesic flow encoder,
particle advection, instance extraction, hole filling), together with
theorems settling the specification claims.

Modelling conventions:
* numpy float64/float32 values are modelled as rationals (`ℚ`); integer
  arrays as `ℤ`/`ℕ`.  Thresholold constants written as decimal literals in
  the source (`0.35`, `1e-3`) are modelled by the exact rationals they
  denote; the claims settled here are robust to the float rounding of
  those constants (noted at each use).
* Python exceptions (`ValueError`, `IndexError`, `TypeError`,
  `UnboundLocalError`) are modelled with `Except String` / `Option`:
  a raising execution returns `.error`/`none`.
* in-place numpy array mutation is modelled by explicit state passing;
  where a claim is about the final contents of a caller-owned array, a
  definition computing those final contents is provided.
* external library calls that are not part of this repository
  (`skfmm.distance`, `scipy.ndimage.uniform_filter`,
  `scipy.ndimage.morphology.binary_fill_holes`,
  `skimage.morphology.remove_small_objects`, `metrics.flow_error`,
  `utils.diameters`) are abstracted as function parameters; where a claim
  needs their concrete behaviour they are modelled from their documented
  semantics (marked `Modelled from the spec:`).
-/

deriving instance DecidableEq for Except

namespace Cellpose

/-- A numpy-style n-dimensional integer array: its shape and its flat
(C-order) data.  `shape.length` is numpy's `ndim`. -/
structure NDArray where
  shape : List Nat
  data : List Int
deriving DecidableEq, Repr

/-- `masks_to_flows2` (dynamics.py lines 222-261).  The function first
checks `masks.ndim > 2` and raises `ValueError('3D input not yet
implemented')` (lines 228-229); only then does it run the 2D geodesic
body (lines 231-261).  The 2D body calls the external geodesic solver
`skfmm.distance`, `scipy` filters and `utils.diameters`, none of which
are repository code, so it is abstracted as the parameter `body2D`
(returning the flow field together with the estimated diameter, as the
source does at line 261). -/
def masksToFlows2 (body2D : NDArray → List ℚ × ℚ) (masks : NDArray) :
    Except String (List ℚ × ℚ) :=
  if 2 < masks.shape.length then
    Except.error "ValueError: 3D input not yet implemented"
  else
    Except.ok (body2D masks)

/-- `labels_to_flows2` (dynamics.py lines 183-219).  The per-image
geodesic encoder call `masks_to_flows2` is passed in as `enc` (it may
itself raise, e.g. on volumetric input).  The branch condition at line
206 is `labels[0].shape[0] == 1 or labels[0].ndim < 3`.  On the compute
branch (lines 207-212) the local `diam` is bound by the
`veci, diam = zip(*...)` at line 209 and the object-probability channel
`labels[n] > 0` is concatenated with the flow channels (line 211;
modelled as flat concatenation of the flattened channels).  On the
precomputed branch (lines 213-218) only `flows` is assigned, so the
`return flows, diam` at line 219 raises `UnboundLocalError`; the
modelled execution short-circuits to that error.  An empty batch raises
`IndexError` at `labels[0]`. -/
def labelsToFlows2 (enc : NDArray → Except String (List ℚ × ℚ))
    (labels : List NDArray) : Except String (List (List ℚ) × List ℚ) :=
  match labels with
  | [] => Except.error "IndexError: list index out of range"
  | l0 :: _ =>
    if l0.shape.headD 0 = 1 ∨ l0.shape.length < 3 then
      match labels.mapM enc with
      | Except.error e => Except.error e
      | Except.ok rs =>
        Except.ok
          ((labels.zip rs).map
            (fun lr =>
              lr.1.data.map (fun z => if 0 < z then (1 : ℚ) else 0) ++ lr.2.1),
            rs.map (fun r => r.2))
    else
      Except.error
        "UnboundLocalError: local variable 'diam' referenced before assignment"

/-! ## Label maps, `find_objects`, and `fill_holes` -/

/-- A 2D label map: rows of nonnegative labels, 0 = background. -/
abbrev LabelGrid := List (List Nat)

/-- The largest label occurring in a 2D label map (`masks.max()`). -/
def gridMax (m : LabelGrid) : Nat :=
  (m.map (fun r => r.foldl max 0)).foldl max 0

/-- All grid cells `(row, col)` of a 2D label map holding value `v`. -/
def cellsWith (m : LabelGrid) (v : Nat) : List (Nat × Nat) :=
  (m.enum.map (fun ri =>
    (ri.2.enum.filterMap (fun cj =>
      if cj.2 = v then some (ri.1, cj.1) else none)))).flatten

/-- A bounding-box slice pair `(rowStart, rowStop, colStart, colStop)`
with numpy's half-open `stop` convention. -/
abbrev Slice2 := Nat × Nat × Nat × Nat

/-- `scipy.ndimage.find_objects` on a 2D label map: one entry per label
`1..max`, `none` when the label has no pixels, otherwise the smallest
slice pair containing all its pixels. -/
def findObjects (m : LabelGrid) : List (Option Slice2) :=
  (List.range (gridMax m)).map (fun i =>
    match cellsWith m (i + 1) with
    | [] => none
    | c :: cs =>
      some ((cs.map Prod.fst).foldl min c.1,
            (cs.map Prod.fst).foldl max c.1 + 1,
            (cs.map Prod.snd).foldl min c.2,
            (cs.map Prod.snd).foldl max c.2 + 1))

/-- The bounding-box submask `masks[sr, sc] == (i+1)` of a slice pair. -/
def subMask (m : LabelGrid) (s : Slice2) (v : Nat) : List (List Bool) :=
  ((m.drop s.1).take (s.2.1 - s.1)).map
    (fun r => ((r.drop s.2.2.1).take (s.2.2.2 - s.2.2.1)).map (fun c => c = v))

/-- Write-back of one `fill_holes` loop body (lines 599-600): inside the
bounding box, cells of `sm` become 0, remaining cells of `mskF` become
`v`, everything else is unchanged (`masks[sr,sc][msk] = (i+1)` followed
by `masks[sr,sc][sm] = 0`, with `sm ⊆ mskF`). -/
def writeBack (m : LabelGrid) (s : Slice2) (v : Nat)
    (mskF sm : List (List Bool)) : LabelGrid :=
  m.enum.map (fun ri =>
    ri.2.enum.map (fun cj =>
      if s.1 ≤ ri.1 ∧ ri.1 < s.2.1 ∧ s.2.2.1 ≤ cj.1 ∧ cj.1 < s.2.2.2 then
        let a := ri.1 - s.1
        let b := cj.1 - s.2.2.1
        if (sm.getD a []).getD b false then 0
        else if (mskF.getD a []).getD b false then v
        else cj.2
      else cj.2))

/-- The `fill_holes` loop (lines 594-601): iterate over the
`find_objects` slices with the counter `i`, unpacking each entry as
`sr, sc`.  Unpacking a `None` entry (an absent label) raises
`TypeError`.  `bfh` models the external
`scipy.ndimage.morphology.binary_fill_holes` and `rso` the external
`skimage.morphology.remove_small_objects` (with `min_size` applied by
the caller). -/
def fillHolesLoop (bfh rso : List (List Bool) → List (List Bool)) :
    Nat → List (Option Slice2) → LabelGrid → Except String LabelGrid
  | _, [], m => Except.ok m
  | _, none :: _, _ =>
    Except.error "TypeError: cannot unpack non-iterable NoneType object"
  | i, some s :: rest, m =>
    let msk := subMask m s (i + 1)
    let mskF := bfh msk
    let sm := (mskF.zip (rso mskF)).map (fun rr =>
      (rr.1.zip rr.2).map (fun bb => bb.1 && !bb.2))
    fillHolesLoop bfh rso (i + 1) rest (writeBack m s (i + 1) mskF sm)

/-- `fill_holes` (dynamics.py lines 568-602), parameterized by the two
external morphology routines. -/
def fillHoles (bfh rso : List (List Bool) → List (List Bool))
    (masks : LabelGrid) : Except String LabelGrid :=
  fillHolesLoop bfh rso 0 (findObjects masks) masks

/-! ## Modelled external morphology (used to settle the concrete
`fill_holes` scenario) -/

/-- All cells of an `nr × nc` grid, row-major. -/
def allCells (nr nc : Nat) : List (Nat × Nat) :=
  (List.range nr).flatMap (fun i => (List.range nc).map (fun j => (i, j)))

/-- Boolean grid lookup, `false` outside the grid. -/
def bgetB (g : List (List Bool)) (c : Nat × Nat) : Bool :=
  (g.getD c.1 []).getD c.2 false

/-- 4-adjacency of two cells. -/
def adj4 (c d : Nat × Nat) : Bool :=
  decide ((c.1 = d.1 ∧ (c.2 = d.2 + 1 ∨ d.2 = c.2 + 1)) ∨
          (c.2 = d.2 ∧ (c.1 = d.1 + 1 ∨ d.1 = c.1 + 1)))

/-- One step of a flood fill: keep every cell already in `s`, and add
every admissible cell 4-adjacent to `s`. -/
def floodStep (ok : Nat × Nat → Bool) (cells : List (Nat × Nat))
    (s : List (Nat × Nat)) : List (Nat × Nat) :=
  cells.filter (fun c => decide (c ∈ s) || (ok c && s.any (fun d => adj4 c d)))

/-- Iterated flood fill (fuel-bounded fixpoint). -/
def floodIter (ok : Nat × Nat → Bool) (cells : List (Nat × Nat)) :
    Nat → List (Nat × Nat) → List (Nat × Nat)
  | 0, s => s
  | n + 1, s => floodIter ok cells n (floodStep ok cells s)

/-- Modelled from the spec: the external
`scipy.ndimage.morphology.binary_fill_holes` (not repository code) fills
topologically enclosed background: background cells 4-connected (the
scipy default structuring element) to the grid border stay background,
all other cells become foreground. -/
def binaryFillHoles (g : List (List Bool)) : List (List Bool) :=
  let nr := g.length
  let nc := (g.headD []).length
  let cells := allCells nr nc
  let border := cells.filter (fun c =>
    !bgetB g c && (c.1 == 0 || c.2 == 0 || c.1 == nr - 1 || c.2 == nc - 1))
  let reach := floodIter (fun c => !bgetB g c) cells (nr * nc) border
  g.enum.map (fun ri => ri.2.enum.map (fun cj =>
    cj.2 || !decide ((ri.1, cj.1) ∈ reach)))

/-- Modelled from the spec: the external
`skimage.morphology.remove_small_objects(ar, min_size, connectivity=1)`
(not repository code) removes every 4-connected foreground component
with fewer than `min_size` pixels. -/
def removeSmallObjects (minSize : Nat) (g : List (List Bool)) :
    List (List Bool) :=
  let nr := g.length
  let nc := (g.headD []).length
  let cells := allCells nr nc
  g.enum.map (fun ri => ri.2.enum.map (fun cj =>
    cj.2 && decide (minSize ≤
      (floodIter (bgetB g) cells (nr * nc) [(ri.1, cj.1)]).length)))

/-! ## Claims C7, C9, C10, C8 -/

/-- C7: `masks_to_flows2` raises for every input label map with more
than 2 dimensions, before computing or returning any flow field (the
conclusion holds for every possible behaviour `body2D` of the 2D body,
so nothing of the geodesic computation is reached or returned). -/
theorem masksToFlows2_fails_fast_on_3d (body2D : NDArray → List ℚ × ℚ)
    (masks : NDArray) (h : 2 < masks.shape.length) :
    masksToFlows2 body2D masks =
      Except.error "ValueError: 3D input not yet implemented" := by
  simp [masksToFlows2, h]

theorem masksToFlows2_fails_fast_on_3d_witness :
    2 < (NDArray.mk [2, 2, 2] (List.replicate 8 1)).shape.length ∧
    masksToFlows2 (fun _ => ([], 0)) (NDArray.mk [2, 2, 2] (List.replicate 8 1)) =
      Except.error "ValueError: 3D input not yet implemented" :=
  ⟨by decide,
   masksToFlows2_fails_fast_on_3d (fun _ => ([], 0)) _ (by decide)⟩

/-- C9: `labels_to_flows2` fails with an unbound-variable error on every
batch taking the precomputed-flows branch (first label has `ndim ≥ 3`
and first extent ≠ 1), because `diam` is only assigned on the compute
branch. -/
theorem labelsToFlows2_precomputed_branch_unbound
    (enc : NDArray → Except String (List ℚ × ℚ)) (l0 : NDArray)
    (rest : List NDArray) (h1 : l0.shape.headD 0 ≠ 1)
    (h2 : 3 ≤ l0.shape.length) :
    labelsToFlows2 enc (l0 :: rest) =
      Except.error
        "UnboundLocalError: local variable 'diam' referenced before assignment" := by
  have hcond : ¬(l0.shape.headD 0 = 1 ∨ l0.shape.length < 3) := by
    push_neg
    exact ⟨h1, by omega⟩
  simp only [labelsToFlows2, if_neg hcond]

theorem labelsToFlows2_precomputed_branch_unbound_witness :
    (NDArray.mk [3, 2, 2] (List.replicate 12 1)).shape.headD 0 ≠ 1 ∧
    3 ≤ (NDArray.mk [3, 2, 2] (List.replicate 12 1)).shape.length ∧
    labelsToFlows2 (fun _ => Except.ok ([], 0))
        [NDArray.mk [3, 2, 2] (List.replicate 12 1)] =
      Except.error
        "UnboundLocalError: local variable 'diam' referenced before assignment" :=
  ⟨by decide, by decide,
   labelsToFlows2_precomputed_branch_unbound (fun _ => Except.ok ([], 0)) _ []
     (by decide) (by decide)⟩

theorem fillHolesLoop_error_of_none (bfh rso : List (List Bool) → List (List Bool))
    (sls : List (Option Slice2)) :
    none ∈ sls → ∀ i m, fillHolesLoop bfh rso i sls m =
      Except.error "TypeError: cannot unpack non-iterable NoneType object" := by
  intro hmem
  induction sls with
  | nil => cases hmem
  | cons hd tl ih =>
    intro i m
    cases hd with
    | none => rfl
    | some s =>
      have htl : none ∈ tl := by
        rcases List.mem_cons.mp hmem with h | h
        · cases h
        · exact h
      exact ih htl (i + 1) _

/-- C10: `fill_holes` requires every label `1..max(masks)` to be
present: when some label has no pixels its `find_objects` entry is
`None`, and the `for sr, sc in slices` unpacking raises `TypeError`
instead of skipping the label — for every behaviour of the external
morphology routines. -/
theorem fillHoles_fails_on_absent_label
    (bfh rso : List (List Bool) → List (List Bool)) (masks : LabelGrid)
    (h : none ∈ findObjects masks) :
    fillHoles bfh rso masks =
      Except.error "TypeError: cannot unpack non-iterable NoneType object" :=
  fillHolesLoop_error_of_none bfh rso (findObjects masks) h 0 masks

theorem fillHoles_fails_on_absent_label_witness :
    none ∈ findObjects [[2]] ∧
    fillHoles binaryFillHoles (removeSmallObjects 15) [[2]] =
      Except.error "TypeError: cannot unpack non-iterable NoneType object" :=
  ⟨by decide,
   fillHoles_fails_on_absent_label binaryFillHoles (removeSmallObjects 15) [[2]]
     (by decide)⟩

/-- The ring-shaped input of the `fill_holes` scenario: label 1 forms a
5×5 annulus (16 pixels) around a 3×3 background hole (9 pixels). -/
def ringMask : LabelGrid :=
  [[0, 0, 0, 0, 0, 0, 0],
   [0, 1, 1, 1, 1, 1, 0],
   [0, 1, 0, 0, 0, 1, 0],
   [0, 1, 0, 0, 0, 1, 0],
   [0, 1, 0, 0, 0, 1, 0],
   [0, 1, 1, 1, 1, 1, 0],
   [0, 0, 0, 0, 0, 0, 0]]

/-- The expected output: the hole filled to label 1, no pixel removed. -/
def solidMask : LabelGrid :=
  [[0, 0, 0, 0, 0, 0, 0],
   [0, 1, 1, 1, 1, 1, 0],
   [0, 1, 1, 1, 1, 1, 0],
   [0, 1, 1, 1, 1, 1, 0],
   [0, 1, 1, 1, 1, 1, 0],
   [0, 1, 1, 1, 1, 1, 0],
   [0, 0, 0, 0, 0, 0, 0]]

set_option maxRecDepth 100000 in
/-- C8: `fill_holes` with `min_size = 15` on the annulus fills the 9-pixel
hole to label 1 and removes nothing, returning the solid square block. -/
theorem fillHoles_annulus_fills_hole :
    fillHoles binaryFillHoles (removeSmallObjects 15) ringMask =
      Except.ok solidMask := by
  decide

/-! ## ParticleAdvector: `steps2D`, `steps3D`, `follow_flows`
(dynamics.py lines 264-382)

Positions and flows (numba `float32`) are modelled as rationals.  The
particle state is a total function from grid coordinates to positions;
the arrays `p` only hold the in-grid cells, so all statements are about
in-grid coordinates.  A flow-field lookup is bounds-checked: an
out-of-bounds lookup makes the whole run return `none` (the safety
claims prove `none` is never produced from the meshgrid start). -/

/-- Python's `int()` cast of a float: truncation toward zero. -/
def truncZ (q : ℚ) : ℤ := if 0 ≤ q then ⌊q⌋ else -⌊-q⌋

/-- `min(hi, max(lo, v))` as written in the per-axis update. -/
def clampQ (lo hi v : ℚ) : ℚ := min hi (max lo v)

/-- 2D particle state: positions of both axes for each grid cell. -/
abbrev P2 := Nat × Nat → ℚ × ℚ

/-- Pointwise state update at one cell. -/
def upd2 (st : P2) (yx : Nat × Nat) (v : ℚ × ℚ) : P2 :=
  fun c => if c = yx then v else st c

/-- A 2-channel flow field (channel, row, column). -/
abbrev Flow2 := List (List (List ℚ))

/-- Bounds-checked flow lookup `dP[a, p0, p1]`. -/
def flowGet2 (dP : Flow2) (a : Nat) (p0 p1 : ℤ) : Option ℚ :=
  if p0 < 0 ∨ p1 < 0 then none
  else ((dP.getD a []).get? p0.toNat).bind (fun row => row.get? p1.toNat)

/-- The body of the inner loop of `steps2D` (lines 336-341): read both
position coordinates, truncate them, look the flow up there, subtract
and clamp each axis to `[0, extent-1]`. -/
def pixStep2D (s0 s1 : Nat) (dP : Flow2) (st : P2) (yx : Nat × Nat) :
    Option P2 :=
  let a0 := (st yx).1
  let a1 := (st yx).2
  let p0 := truncZ a0
  let p1 := truncZ a1
  match flowGet2 dP 0 p0 p1, flowGet2 dP 1 p0 p1 with
  | some v0, some v1 =>
    some (upd2 st yx
      (clampQ 0 ((s0 : ℚ) - 1) (a0 - v0), clampQ 0 ((s1 : ℚ) - 1) (a1 - v1)))
  | _, _ => none

/-- `steps2D` (lines 305-342): `niter` outer iterations, each running the
per-pixel update over the active index list `inds` in order. -/
def steps2D (s0 s1 : Nat) (dP : Flow2) (inds : List (Nat × Nat)) :
    Nat → P2 → Option P2
  | 0, st => some st
  | n + 1, st =>
    match inds.foldlM (pixStep2D s0 s1 dP) st with
    | none => none
    | some st2 => steps2D s0 s1 dP inds n st2

/-- The initial 2D meshgrid: every pixel at its own grid coordinate. -/
def mesh2 : P2 := fun c => ((c.1 : ℚ), (c.2 : ℚ))

/-- Unchecked elementwise flow read (used for the active-set test, which
in the source is a whole-array operation over the properly shaped
`dP`). -/
def dPval2 (dP : Flow2) (a y x : Nat) : ℚ :=
  ((dP.getD a []).getD y []).getD x 0

/-- The 2D active set of `follow_flows` (line 380): all pixels, in
C order, with `|dP[0]| > 0` or `|dP[1]| > 0`. -/
def inds2 (dP : Flow2) (s0 s1 : Nat) : List (Nat × Nat) :=
  (allCells s0 s1).filter (fun c =>
    decide (0 < |dPval2 dP 0 c.1 c.2| ∨ 0 < |dPval2 dP 1 c.1 c.2|))

/-- `follow_flows` on a 2D flow field (lines 366-382): meshgrid start,
dynamics only on the active set. -/
def followFlows2D (dP : Flow2) (niter : Nat) : Option P2 :=
  let s0 := (dP.getD 0 []).length
  let s1 := ((dP.getD 0 []).headD []).length
  steps2D s0 s1 dP (inds2 dP s0 s1) niter mesh2

/-- Well-formedness of a 2-channel 2D flow field: two channels of
`s0 × s1` entries. -/
def WF2 (dP : Flow2) (s0 s1 : Nat) : Prop :=
  ∃ g0 g1, dP = [g0, g1] ∧ g0.length = s0 ∧ g1.length = s0 ∧
    (∀ r ∈ g0, r.length = s1) ∧ (∀ r ∈ g1, r.length = s1)

/-- All in-grid positions lie in `[0, extent-1]` on both axes. -/
def inRange2 (s0 s1 : Nat) (st : P2) : Prop :=
  ∀ c : Nat × Nat, c.1 < s0 → c.2 < s1 →
    0 ≤ (st c).1 ∧ (st c).1 ≤ (s0 : ℚ) - 1 ∧
    0 ≤ (st c).2 ∧ (st c).2 ≤ (s1 : ℚ) - 1

theorem truncZ_mem (q : ℚ) (n : Nat) (h0 : 0 ≤ q) (h1 : q ≤ (n : ℚ) - 1) :
    0 ≤ truncZ q ∧ truncZ q ≤ (n : ℤ) - 1 := by
  have hq : truncZ q = ⌊q⌋ := if_pos h0
  constructor
  · rw [hq]
    exact Int.le_floor.mpr (by exact_mod_cast h0)
  · rw [hq]
    have h2 : (⌊q⌋ : ℚ) ≤ (n : ℚ) - 1 := le_trans (Int.floor_le q) h1
    exact_mod_cast h2

theorem clampQ_mem (n : Nat) (v : ℚ) (hn : 1 ≤ n) :
    0 ≤ clampQ 0 ((n : ℚ) - 1) v ∧ clampQ 0 ((n : ℚ) - 1) v ≤ (n : ℚ) - 1 := by
  have hhi : (0 : ℚ) ≤ (n : ℚ) - 1 := by
    have : (1 : ℚ) ≤ (n : ℚ) := by exact_mod_cast hn
    linarith
  exact ⟨le_min hhi (le_max_left 0 v), min_le_left _ _⟩

theorem gridGet_ok (g : List (List ℚ)) (s0 s1 : Nat) (hl : g.length = s0)
    (hr : ∀ r ∈ g, r.length = s1) (p0 p1 : ℤ) (h00 : 0 ≤ p0)
    (h01 : p0 ≤ (s0 : ℤ) - 1) (h10 : 0 ≤ p1) (h11 : p1 ≤ (s1 : ℤ) - 1) :
    ∃ v, (g.get? p0.toNat).bind (fun row => row.get? p1.toNat) = some v := by
  have hpn : p0.toNat < g.length := by omega
  have hrow : g.get? p0.toNat = some (g.get ⟨p0.toNat, hpn⟩) :=
    List.get?_eq_get hpn
  have hmem : g.get ⟨p0.toNat, hpn⟩ ∈ g := List.get_mem g _ hpn
  have hlen : (g.get ⟨p0.toNat, hpn⟩).length = s1 := hr _ hmem
  have hqn : p1.toNat < (g.get ⟨p0.toNat, hpn⟩).length := by omega
  exact ⟨_, by rw [hrow]; exact List.get?_eq_get hqn⟩

theorem flowGet2_ok (dP : Flow2) (s0 s1 : Nat) (hwf : WF2 dP s0 s1) (a : Nat)
    (ha : a = 0 ∨ a = 1) (p0 p1 : ℤ) (h00 : 0 ≤ p0) (h01 : p0 ≤ (s0 : ℤ) - 1)
    (h10 : 0 ≤ p1) (h11 : p1 ≤ (s1 : ℤ) - 1) :
    ∃ v, flowGet2 dP a p0 p1 = some v := by
  obtain ⟨g0, g1, hdp, hl0, hl1, hr0, hr1⟩ := hwf
  subst hdp
  have hneg : ¬(p0 < 0 ∨ p1 < 0) := by omega
  rcases ha with h | h <;> subst h
  · obtain ⟨v, hv⟩ := gridGet_ok g0 s0 s1 hl0 hr0 p0 p1 h00 h01 h10 h11
    exact ⟨v, by rw [flowGet2, if_neg hneg]; exact hv⟩
  · obtain ⟨v, hv⟩ := gridGet_ok g1 s0 s1 hl1 hr1 p0 p1 h00 h01 h10 h11
    exact ⟨v, by rw [flowGet2, if_neg hneg]; exact hv⟩

theorem pixStep2D_ok (s0 s1 : Nat) (dP : Flow2) (hwf : WF2 dP s0 s1)
    (st : P2) (hst : inRange2 s0 s1 st) (yx : Nat × Nat) (hy : yx.1 < s0)
    (hx : yx.2 < s1) :
    ∃ st2, pixStep2D s0 s1 dP st yx = some st2 ∧ inRange2 s0 s1 st2 := by
  obtain ⟨hb0, hb1, hb2, hb3⟩ := hst yx hy hx
  obtain ⟨ht0, ht1⟩ := truncZ_mem _ s0 hb0 hb1
  obtain ⟨ht2, ht3⟩ := truncZ_mem _ s1 hb2 hb3
  obtain ⟨v0, hv0⟩ := flowGet2_ok dP s0 s1 hwf 0 (Or.inl rfl) _ _ ht0 ht1 ht2 ht3
  obtain ⟨v1, hv1⟩ := flowGet2_ok dP s0 s1 hwf 1 (Or.inr rfl) _ _ ht0 ht1 ht2 ht3
  refine ⟨_, by rw [pixStep2D, hv0, hv1], ?_⟩
  intro c hc1 hc2
  by_cases hcy : c = yx
  · subst hcy
    have h0 : 1 ≤ s0 := by omega
    have h1 : 1 ≤ s1 := by omega
    obtain ⟨hc0, hc1'⟩ := clampQ_mem s0 ((st c).1 - v0) h0
    obtain ⟨hc2', hc3⟩ := clampQ_mem s1 ((st c).2 - v1) h1
    simp only [upd2, if_pos rfl]
    exact ⟨hc0, hc1', hc2', hc3⟩
  · simp only [upd2, if_neg hcy]
    exact hst c hc1 hc2

theorem fold2D_ok (s0 s1 : Nat) (dP : Flow2) (hwf : WF2 dP s0 s1)
    (inds : List (Nat × Nat)) (hinds : ∀ c ∈ inds, c.1 < s0 ∧ c.2 < s1) :
    ∀ st, inRange2 s0 s1 st →
      ∃ st2, inds.foldlM (pixStep2D s0 s1 dP) st = some st2 ∧
        inRange2 s0 s1 st2 := by
  induction inds with
  | nil => exact fun st hst => ⟨st, rfl, hst⟩
  | cons c tl ih =>
    intro st hst
    obtain ⟨hc1, hc2⟩ := hinds c (List.mem_cons_self c tl)
    obtain ⟨st1, hst1, hr1⟩ := pixStep2D_ok s0 s1 dP hwf st hst c hc1 hc2
    obtain ⟨st2, hst2, hr2⟩ :=
      ih (fun d hd => hinds d (List.mem_cons_of_mem c hd)) st1 hr1
    exact ⟨st2, by rw [List.foldlM_cons, hst1]; exact hst2, hr2⟩

theorem steps2D_ok (s0 s1 : Nat) (dP : Flow2) (hwf : WF2 dP s0 s1)
    (inds : List (Nat × Nat)) (hinds : ∀ c ∈ inds, c.1 < s0 ∧ c.2 < s1) :
    ∀ (niter : Nat) (st : P2), inRange2 s0 s1 st →
      ∃ st2, steps2D s0 s1 dP inds niter st = some st2 ∧
        inRange2 s0 s1 st2 := by
  intro niter
  induction niter with
  | zero => exact fun st hst => ⟨st, rfl, hst⟩
  | succ n ih =>
    intro st hst
    obtain ⟨st1, hst1, hr1⟩ := fold2D_ok s0 s1 dP hwf inds hinds st hst
    obtain ⟨st2, hst2, hr2⟩ := ih st1 hr1
    exact ⟨st2, by rw [steps2D, hst1]; exact hst2, hr2⟩

theorem mesh2_inRange (s0 s1 : Nat) : inRange2 s0 s1 mesh2 := by
  intro c hc1 hc2
  simp only [mesh2]
  have h1 : (c.1 : ℚ) + 1 ≤ (s0 : ℚ) := by exact_mod_cast hc1
  have h2 : (c.2 : ℚ) + 1 ≤ (s1 : ℚ) := by exact_mod_cast hc2
  have h3 : (0 : ℚ) ≤ (c.1 : ℚ) := by positivity
  have h4 : (0 : ℚ) ≤ (c.2 : ℚ) := by positivity
  exact ⟨h3, by linarith, h4, by linarith⟩

/-- 3D particle state. -/
abbrev P3 := Nat × Nat × Nat → ℚ × ℚ × ℚ

/-- Pointwise 3D state update. -/
def upd3 (st : P3) (zyx : Nat × Nat × Nat) (v : ℚ × ℚ × ℚ) : P3 :=
  fun c => if c = zyx then v else st c

/-- A 3-channel volumetric flow field (channel, plane, row, column). -/
abbrev Flow3 := List (List (List (List ℚ)))

/-- Bounds-checked flow lookup `dP[a, p0, p1, p2]`. -/
def flowGet3 (dP : Flow3) (a : Nat) (p0 p1 p2 : ℤ) : Option ℚ :=
  if p0 < 0 ∨ p1 < 0 ∨ p2 < 0 then none
  else ((dP.getD a []).get? p0.toNat).bind (fun pl =>
    (pl.get? p1.toNat).bind (fun row => row.get? p2.toNat))

/-- The body of the inner loop of `steps3D` (lines 295-302). -/
def pixStep3D (s0 s1 s2 : Nat) (dP : Flow3) (st : P3) (zyx : Nat × Nat × Nat) :
    Option P3 :=
  let a0 := (st zyx).1
  let a1 := (st zyx).2.1
  let a2 := (st zyx).2.2
  let p0 := truncZ a0
  let p1 := truncZ a1
  let p2 := truncZ a2
  match flowGet3 dP 0 p0 p1 p2, flowGet3 dP 1 p0 p1 p2,
        flowGet3 dP 2 p0 p1 p2 with
  | some v0, some v1, some v2 =>
    some (upd3 st zyx
      (clampQ 0 ((s0 : ℚ) - 1) (a0 - v0), clampQ 0 ((s1 : ℚ) - 1) (a1 - v1),
       clampQ 0 ((s2 : ℚ) - 1) (a2 - v2)))
  | _, _, _ => none

/-- `steps3D` (lines 264-303). -/
def steps3D (s0 s1 s2 : Nat) (dP : Flow3) (inds : List (Nat × Nat × Nat)) :
    Nat → P3 → Option P3
  | 0, st => some st
  | n + 1, st =>
    match inds.foldlM (pixStep3D s0 s1 s2 dP) st with
    | none => none
    | some st2 => steps3D s0 s1 s2 dP inds n st2

/-- The initial 3D meshgrid. -/
def mesh3 : P3 := fun c => ((c.1 : ℚ), (c.2.1 : ℚ), (c.2.2 : ℚ))

/-- All cells of an `n0 × n1 × n2` volume, C order. -/
def allCells3 (n0 n1 n2 : Nat) : List (Nat × Nat × Nat) :=
  (List.range n0).flatMap (fun i =>
    (List.range n1).flatMap (fun j =>
      (List.range n2).map (fun k => (i, j, k))))

/-- Unchecked elementwise 3D flow read. -/
def dPval3 (dP : Flow3) (a z y x : Nat) : ℚ :=
  (((dP.getD a []).getD z []).getD y []).getD x 0

/-- The 3D active set of `follow_flows` (line 373): all voxels, in C
order, with `|dP[0]| > 1e-3`.  The source constant `1e-3` is the float64
nearest to 1/1000; it is modelled as the exact rational 1/1000. -/
def inds3 (dP : Flow3) (s0 s1 s2 : Nat) : List (Nat × Nat × Nat) :=
  (allCells3 s0 s1 s2).filter (fun c =>
    decide ((1 : ℚ)/1000 < |dPval3 dP 0 c.1 c.2.1 c.2.2|))

/-- `follow_flows` on a 3D flow field (lines 366-374). -/
def followFlows3D (dP : Flow3) (niter : Nat) : Option P3 :=
  let s0 := (dP.getD 0 []).length
  let s1 := ((dP.getD 0 []).headD []).length
  let s2 := (((dP.getD 0 []).headD []).headD []).length
  steps3D s0 s1 s2 dP (inds3 dP s0 s1 s2) niter mesh3

/-- Well-formedness of a 3-channel volumetric flow field. -/
def WF3 (dP : Flow3) (s0 s1 s2 : Nat) : Prop :=
  dP.length = 3 ∧ ∀ g ∈ dP, g.length = s0 ∧
    ∀ pl ∈ g, pl.length = s1 ∧ ∀ r ∈ pl, r.length = s2

/-- All in-volume positions lie in `[0, extent-1]` on all three axes. -/
def inRange3 (s0 s1 s2 : Nat) (st : P3) : Prop :=
  ∀ c : Nat × Nat × Nat, c.1 < s0 → c.2.1 < s1 → c.2.2 < s2 →
    0 ≤ (st c).1 ∧ (st c).1 ≤ (s0 : ℚ) - 1 ∧
    0 ≤ (st c).2.1 ∧ (st c).2.1 ≤ (s1 : ℚ) - 1 ∧
    0 ≤ (st c).2.2 ∧ (st c).2.2 ≤ (s2 : ℚ) - 1

theorem flowGet3_ok (dP : Flow3) (s0 s1 s2 : Nat) (hwf : WF3 dP s0 s1 s2)
    (a : Nat) (ha : a < 3) (p0 p1 p2 : ℤ) (h00 : 0 ≤ p0)
    (h01 : p0 ≤ (s0 : ℤ) - 1) (h10 : 0 ≤ p1) (h11 : p1 ≤ (s1 : ℤ) - 1)
    (h20 : 0 ≤ p2) (h21 : p2 ≤ (s2 : ℤ) - 1) :
    ∃ v, flowGet3 dP a p0 p1 p2 = some v := by
  obtain ⟨hlen, hch⟩ := hwf
  have hga : dP.getD a [] ∈ dP := by
    have haa : a < dP.length := by omega
    rw [List.getD_eq_get _ _ haa]
    exact List.get_mem dP _ haa
  obtain ⟨hglen, hpl⟩ := hch _ hga
  have hneg : ¬(p0 < 0 ∨ p1 < 0 ∨ p2 < 0) := by omega
  have hp0 : p0.toNat < (dP.getD a []).length := by omega
  have hplmem : (dP.getD a []).get ⟨p0.toNat, hp0⟩ ∈ dP.getD a [] :=
    List.get_mem _ _ hp0
  obtain ⟨hpllen, hrow⟩ := hpl _ hplmem
  have hp1 : p1.toNat < ((dP.getD a []).get ⟨p0.toNat, hp0⟩).length := by omega
  have hrmem : ((dP.getD a []).get ⟨p0.toNat, hp0⟩).get ⟨p1.toNat, hp1⟩ ∈
      (dP.getD a []).get ⟨p0.toNat, hp0⟩ := List.get_mem _ _ hp1
  have hrlen := hrow _ hrmem
  have hp2 : p2.toNat <
      (((dP.getD a []).get ⟨p0.toNat, hp0⟩).get ⟨p1.toNat, hp1⟩).length := by
    omega
  refine ⟨(((dP.getD a []).get ⟨p0.toNat, hp0⟩).get ⟨p1.toNat, hp1⟩).get
    ⟨p2.toNat, hp2⟩, ?_⟩
  rw [flowGet3, if_neg hneg, List.get?_eq_get hp0, Option.some_bind,
    List.get?_eq_get hp1, Option.some_bind, List.get?_eq_get hp2]

theorem pixStep3D_ok (s0 s1 s2 : Nat) (dP : Flow3) (hwf : WF3 dP s0 s1 s2)
    (st : P3) (hst : inRange3 s0 s1 s2 st) (zyx : Nat × Nat × Nat)
    (hz : zyx.1 < s0) (hy : zyx.2.1 < s1) (hx : zyx.2.2 < s2) :
    ∃ st2, pixStep3D s0 s1 s2 dP st zyx = some st2 ∧
      inRange3 s0 s1 s2 st2 := by
  obtain ⟨hb0, hb1, hb2, hb3, hb4, hb5⟩ := hst zyx hz hy hx
  obtain ⟨ht0, ht1⟩ := truncZ_mem _ s0 hb0 hb1
  obtain ⟨ht2, ht3⟩ := truncZ_mem _ s1 hb2 hb3
  obtain ⟨ht4, ht5⟩ := truncZ_mem _ s2 hb4 hb5
  obtain ⟨v0, hv0⟩ :=
    flowGet3_ok dP s0 s1 s2 hwf 0 (by omega) _ _ _ ht0 ht1 ht2 ht3 ht4 ht5
  obtain ⟨v1, hv1⟩ :=
    flowGet3_ok dP s0 s1 s2 hwf 1 (by omega) _ _ _ ht0 ht1 ht2 ht3 ht4 ht5
  obtain ⟨v2, hv2⟩ :=
    flowGet3_ok dP s0 s1 s2 hwf 2 (by omega) _ _ _ ht0 ht1 ht2 ht3 ht4 ht5
  refine ⟨_, by rw [pixStep3D, hv0, hv1, hv2], ?_⟩
  intro c hc1 hc2 hc3
  by_cases hcy : c = zyx
  · subst hcy
    obtain ⟨hm0, hm1⟩ := clampQ_mem s0 ((st c).1 - v0) (by omega)
    obtain ⟨hm2, hm3⟩ := clampQ_mem s1 ((st c).2.1 - v1) (by omega)
    obtain ⟨hm4, hm5⟩ := clampQ_mem s2 ((st c).2.2 - v2) (by omega)
    simp only [upd3, if_pos rfl]
    exact ⟨hm0, hm1, hm2, hm3, hm4, hm5⟩
  · simp only [upd3, if_neg hcy]
    exact hst c hc1 hc2 hc3

theorem fold3D_ok (s0 s1 s2 : Nat) (dP : Flow3) (hwf : WF3 dP s0 s1 s2)
    (inds : List (Nat × Nat × Nat))
    (hinds : ∀ c ∈ inds, c.1 < s0 ∧ c.2.1 < s1 ∧ c.2.2 < s2) :
    ∀ st, inRange3 s0 s1 s2 st →
      ∃ st2, inds.foldlM (pixStep3D s0 s1 s2 dP) st = some st2 ∧
        inRange3 s0 s1 s2 st2 := by
  induction inds with
  | nil => exact fun st hst => ⟨st, rfl, hst⟩
  | cons c tl ih =>
    intro st hst
    obtain ⟨hc1, hc2, hc3⟩ := hinds c (List.mem_cons_self c tl)
    obtain ⟨st1, hst1, hr1⟩ := pixStep3D_ok s0 s1 s2 dP hwf st hst c hc1 hc2 hc3
    obtain ⟨st2, hst2, hr2⟩ :=
      ih (fun d hd => hinds d (List.mem_cons_of_mem c hd)) st1 hr1
    exact ⟨st2, by rw [List.foldlM_cons, hst1]; exact hst2, hr2⟩

theorem steps3D_ok (s0 s1 s2 : Nat) (dP : Flow3) (hwf : WF3 dP s0 s1 s2)
    (inds : List (Nat × Nat × Nat))
    (hinds : ∀ c ∈ inds, c.1 < s0 ∧ c.2.1 < s1 ∧ c.2.2 < s2) :
    ∀ (niter : Nat) (st : P3), inRange3 s0 s1 s2 st →
      ∃ st2, steps3D s0 s1 s2 dP inds niter st = some st2 ∧
        inRange3 s0 s1 s2 st2 := by
  intro niter
  induction niter with
  | zero => exact fun st hst => ⟨st, rfl, hst⟩
  | succ n ih =>
    intro st hst
    obtain ⟨st1, hst1, hr1⟩ := fold3D_ok s0 s1 s2 dP hwf inds hinds st hst
    obtain ⟨st2, hst2, hr2⟩ := ih st1 hr1
    exact ⟨st2, by rw [steps3D, hst1]; exact hst2, hr2⟩

theorem mesh3_inRange (s0 s1 s2 : Nat) : inRange3 s0 s1 s2 mesh3 := by
  intro c hc1 hc2 hc3
  simp only [mesh3]
  have h1 : (c.1 : ℚ) + 1 ≤ (s0 : ℚ) := by exact_mod_cast hc1
  have h2 : (c.2.1 : ℚ) + 1 ≤ (s1 : ℚ) := by exact_mod_cast hc2
  have h3 : (c.2.2 : ℚ) + 1 ≤ (s2 : ℚ) := by exact_mod_cast hc3
  have h4 : (0 : ℚ) ≤ (c.1 : ℚ) := by positivity
  have h5 : (0 : ℚ) ≤ (c.2.1 : ℚ) := by positivity
  have h6 : (0 : ℚ) ≤ (c.2.2 : ℚ) := by positivity
  exact ⟨h4, by linarith, h5, by linarith, h6, by linarith⟩

theorem pixStep2D_untouched (s0 s1 : Nat) (dP : Flow2) (st st2 : P2)
    (yx : Nat × Nat) (h : pixStep2D s0 s1 dP st yx = some st2)
    (c : Nat × Nat) (hc : c ≠ yx) : st2 c = st c := by
  rw [pixStep2D] at h
  cases hA : flowGet2 dP 0 (truncZ (st yx).1) (truncZ (st yx).2) with
  | none => rw [hA] at h; exact absurd h (by simp)
  | some v0 =>
    cases hB : flowGet2 dP 1 (truncZ (st yx).1) (truncZ (st yx).2) with
    | none => rw [hA, hB] at h; exact absurd h (by simp)
    | some v1 =>
      rw [hA, hB] at h
      rw [← Option.some.inj h]
      simp [upd2, hc]

theorem fold2D_untouched (s0 s1 : Nat) (dP : Flow2) :
    ∀ (inds : List (Nat × Nat)) (st st2 : P2),
      inds.foldlM (pixStep2D s0 s1 dP) st = some st2 →
      ∀ c, c ∉ inds → st2 c = st c := by
  intro inds
  induction inds with
  | nil =>
    intro st st2 h c _
    cases h
    rfl
  | cons d tl ih =>
    intro st st2 h c hc
    rw [List.foldlM_cons] at h
    cases hA : pixStep2D s0 s1 dP st d with
    | none => rw [hA] at h; exact absurd h (by simp)
    | some st1 =>
      rw [hA] at h
      have h2 : tl.foldlM (pixStep2D s0 s1 dP) st1 = some st2 := h
      have hne : c ≠ d := fun he => hc (by rw [he]; exact List.mem_cons_self d tl)
      rw [ih st1 st2 h2 c (fun hm => hc (List.mem_cons_of_mem d hm))]
      exact pixStep2D_untouched s0 s1 dP st st1 d hA c hne

theorem steps2D_untouched (s0 s1 : Nat) (dP : Flow2) (inds : List (Nat × Nat)) :
    ∀ (niter : Nat) (st st2 : P2),
      steps2D s0 s1 dP inds niter st = some st2 →
      ∀ c, c ∉ inds → st2 c = st c := by
  intro niter
  induction niter with
  | zero =>
    intro st st2 h c _
    cases h
    rfl
  | succ n ih =>
    intro st st2 h c hc
    simp only [steps2D] at h
    cases hA : inds.foldlM (pixStep2D s0 s1 dP) st with
    | none => rw [hA] at h; exact absurd h (by simp)
    | some st1 =>
      rw [hA] at h
      rw [ih st1 st2 h c hc]
      exact fold2D_untouched s0 s1 dP inds st st1 hA c hc

theorem pixStep3D_untouched (s0 s1 s2 : Nat) (dP : Flow3) (st st2 : P3)
    (zyx : Nat × Nat × Nat) (h : pixStep3D s0 s1 s2 dP st zyx = some st2)
    (c : Nat × Nat × Nat) (hc : c ≠ zyx) : st2 c = st c := by
  rw [pixStep3D] at h
  cases hA : flowGet3 dP 0 (truncZ (st zyx).1) (truncZ (st zyx).2.1)
      (truncZ (st zyx).2.2) with
  | none => rw [hA] at h; exact absurd h (by simp)
  | some v0 =>
    cases hB : flowGet3 dP 1 (truncZ (st zyx).1) (truncZ (st zyx).2.1)
        (truncZ (st zyx).2.2) with
    | none => rw [hA, hB] at h; exact absurd h (by simp)
    | some v1 =>
      cases hC : flowGet3 dP 2 (truncZ (st zyx).1) (truncZ (st zyx).2.1)
          (truncZ (st zyx).2.2) with
      | none => rw [hA, hB, hC] at h; exact absurd h (by simp)
      | some v2 =>
        rw [hA, hB, hC] at h
        rw [← Option.some.inj h]
        simp [upd3, hc]

theorem fold3D_untouched (s0 s1 s2 : Nat) (dP : Flow3) :
    ∀ (inds : List (Nat × Nat × Nat)) (st st2 : P3),
      inds.foldlM (pixStep3D s0 s1 s2 dP) st = some st2 →
      ∀ c, c ∉ inds → st2 c = st c := by
  intro inds
  induction inds with
  | nil =>
    intro st st2 h c _
    cases h
    rfl
  | cons d tl ih =>
    intro st st2 h c hc
    rw [List.foldlM_cons] at h
    cases hA : pixStep3D s0 s1 s2 dP st d with
    | none => rw [hA] at h; exact absurd h (by simp)
    | some st1 =>
      rw [hA] at h
      have h2 : tl.foldlM (pixStep3D s0 s1 s2 dP) st1 = some st2 := h
      have hne : c ≠ d := fun he => hc (by rw [he]; exact List.mem_cons_self d tl)
      rw [ih st1 st2 h2 c (fun hm => hc (List.mem_cons_of_mem d hm))]
      exact pixStep3D_untouched s0 s1 s2 dP st st1 d hA c hne

theorem steps3D_untouched (s0 s1 s2 : Nat) (dP : Flow3)
    (inds : List (Nat × Nat × Nat)) :
    ∀ (niter : Nat) (st st2 : P3),
      steps3D s0 s1 s2 dP inds niter st = some st2 →
      ∀ c, c ∉ inds → st2 c = st c := by
  intro niter
  induction niter with
  | zero =>
    intro st st2 h c _
    cases h
    rfl
  | succ n ih =>
    intro st st2 h c hc
    simp only [steps3D] at h
    cases hA : inds.foldlM (pixStep3D s0 s1 s2 dP) st with
    | none => rw [hA] at h; exact absurd h (by simp)
    | some st1 =>
      rw [hA] at h
      rw [ih st1 st2 h c hc]
      exact fold3D_untouched s0 s1 s2 dP inds st st1 hA c hc

theorem mem_allCells (nr nc : Nat) (c : Nat × Nat) :
    c ∈ allCells nr nc ↔ c.1 < nr ∧ c.2 < nc := by
  cases c with
  | mk i j =>
    constructor
    · intro h
      simp only [allCells, List.mem_flatMap, List.mem_map, List.mem_range] at h
      obtain ⟨a, ha, b, hb, he⟩ := h
      cases he
      exact ⟨ha, hb⟩
    · intro ⟨hi, hj⟩
      simp only [allCells, List.mem_flatMap, List.mem_map, List.mem_range]
      exact ⟨i, hi, j, hj, rfl⟩

theorem mem_allCells3 (n0 n1 n2 : Nat) (c : Nat × Nat × Nat) :
    c ∈ allCells3 n0 n1 n2 ↔ c.1 < n0 ∧ c.2.1 < n1 ∧ c.2.2 < n2 := by
  obtain ⟨i, j, k⟩ := c
  constructor
  · intro h
    simp only [allCells3, List.mem_flatMap, List.mem_map, List.mem_range] at h
    obtain ⟨a, ha, b, hb, e, he, hee⟩ := h
    cases hee
    exact ⟨ha, hb, he⟩
  · intro ⟨hi, hj, hk⟩
    simp only [allCells3, List.mem_flatMap, List.mem_map, List.mem_range]
    exact ⟨i, hi, j, hj, k, hk, rfl⟩

theorem mem_inds2 (dP : Flow2) (s0 s1 : Nat) (c : Nat × Nat) :
    c ∈ inds2 dP s0 s1 ↔ (c.1 < s0 ∧ c.2 < s1) ∧
      (dPval2 dP 0 c.1 c.2 ≠ 0 ∨ dPval2 dP 1 c.1 c.2 ≠ 0) := by
  rw [inds2, List.mem_filter, mem_allCells]
  simp [abs_pos]

theorem mem_inds3 (dP : Flow3) (s0 s1 s2 : Nat) (c : Nat × Nat × Nat) :
    c ∈ inds3 dP s0 s1 s2 ↔ (c.1 < s0 ∧ c.2.1 < s1 ∧ c.2.2 < s2) ∧
      (1 : ℚ)/1000 < |dPval3 dP 0 c.1 c.2.1 c.2.2| := by
  rw [inds3, List.mem_filter, mem_allCells3]
  simp

/-- C4: in `steps2D`/`steps3D`, starting from the initial meshgrid, every
flow-field lookup at a particle's truncated integer position is in
bounds (the run returns `some`, the modelled lookups never fail), and the
per-step clamp keeps every in-grid coordinate within `[0, extent-1]`
after every iteration (quantifying over `niter` gives the state after
each iteration of any longer run, since every iteration applies the same
pass), for every well-formed flow field, every in-grid active index set,
and every iteration count. -/
theorem steps_clamped_in_bounds :
    (∀ (dP : Flow2) (s0 s1 : Nat), WF2 dP s0 s1 →
      ∀ inds : List (Nat × Nat), (∀ c ∈ inds, c.1 < s0 ∧ c.2 < s1) →
      ∀ niter : Nat,
        ∃ st, steps2D s0 s1 dP inds niter mesh2 = some st ∧
          inRange2 s0 s1 st) ∧
    (∀ (dP : Flow3) (s0 s1 s2 : Nat), WF3 dP s0 s1 s2 →
      ∀ inds : List (Nat × Nat × Nat),
        (∀ c ∈ inds, c.1 < s0 ∧ c.2.1 < s1 ∧ c.2.2 < s2) →
      ∀ niter : Nat,
        ∃ st, steps3D s0 s1 s2 dP inds niter mesh3 = some st ∧
          inRange3 s0 s1 s2 st) :=
  ⟨fun dP s0 s1 hwf inds hinds niter =>
     steps2D_ok s0 s1 dP hwf inds hinds niter mesh2 (mesh2_inRange s0 s1),
   fun dP s0 s1 s2 hwf inds hinds niter =>
     steps3D_ok s0 s1 s2 dP hwf inds hinds niter mesh3 (mesh3_inRange s0 s1 s2)⟩

theorem steps_clamped_in_bounds_witness :
    (∃ st, steps2D 1 1 [[[(1 : ℚ)/2]], [[0]]] [(0, 0)] 1 mesh2 = some st ∧
       inRange2 1 1 st) ∧
    (∃ st, steps3D 1 1 1 [[[[(3 : ℚ)]]], [[[0]]], [[[-2]]]] [(0, 0, 0)] 2 mesh3
        = some st ∧ inRange3 1 1 1 st) :=
  ⟨steps_clamped_in_bounds.1 [[[(1 : ℚ)/2]], [[0]]] 1 1
     ⟨[[(1 : ℚ)/2]], [[0]], rfl, rfl, rfl, by decide, by decide⟩
     [(0, 0)] (by decide) 1,
   steps_clamped_in_bounds.2 [[[[(3 : ℚ)]]], [[[0]]], [[[-2]]]] 1 1 1
     ⟨rfl, by decide⟩ [(0, 0, 0)] (by decide) 2⟩

/-- C6: in `follow_flows`, the active set is exactly the pixels whose
initial flow exceeds the threshold (2D: either axis component nonzero;
3D: first-axis magnitude > 1e-3, modelled as the exact rational 1/1000),
and every in-grid pixel outside the active set is returned at its own
initial grid coordinate, for every iteration count. -/
theorem followFlows_active_set :
    (∀ (dP : Flow2) (s0 s1 : Nat), WF2 dP s0 s1 → 0 < s0 →
      ∀ niter : Nat,
        ∃ st, followFlows2D dP niter = some st ∧
          (∀ c : Nat × Nat, c ∈ inds2 dP s0 s1 ↔ (c.1 < s0 ∧ c.2 < s1) ∧
            (dPval2 dP 0 c.1 c.2 ≠ 0 ∨ dPval2 dP 1 c.1 c.2 ≠ 0)) ∧
          (∀ c : Nat × Nat, c.1 < s0 → c.2 < s1 →
            dPval2 dP 0 c.1 c.2 = 0 → dPval2 dP 1 c.1 c.2 = 0 →
            st c = ((c.1 : ℚ), (c.2 : ℚ)))) ∧
    (∀ (dP : Flow3) (s0 s1 s2 : Nat), WF3 dP s0 s1 s2 → 0 < s0 → 0 < s1 →
      ∀ niter : Nat,
        ∃ st, followFlows3D dP niter = some st ∧
          (∀ c : Nat × Nat × Nat, c ∈ inds3 dP s0 s1 s2 ↔
            (c.1 < s0 ∧ c.2.1 < s1 ∧ c.2.2 < s2) ∧
            (1 : ℚ)/1000 < |dPval3 dP 0 c.1 c.2.1 c.2.2|) ∧
          (∀ c : Nat × Nat × Nat, c.1 < s0 → c.2.1 < s1 → c.2.2 < s2 →
            ¬((1 : ℚ)/1000 < |dPval3 dP 0 c.1 c.2.1 c.2.2|) →
            st c = ((c.1 : ℚ), (c.2.1 : ℚ), (c.2.2 : ℚ)))) := by
  constructor
  · intro dP s0 s1 hwf hs0 niter
    obtain ⟨g0, g1, hdp, hl0, hl1, hr0, hr1⟩ := hwf
    have hwf2 : WF2 dP s0 s1 := ⟨g0, g1, hdp, hl0, hl1, hr0, hr1⟩
    have hs0' : (dP.getD 0 []).length = s0 := by rw [hdp]; exact hl0
    have hs1' : ((dP.getD 0 []).headD []).length = s1 := by
      rw [hdp]
      show (g0.headD []).length = s1
      cases hg : g0 with
      | nil => rw [hg] at hl0; simp at hl0; omega
      | cons r rs =>
        show r.length = s1
        exact hr0 r (by rw [hg]; exact List.mem_cons_self r rs)
    have hff : followFlows2D dP niter =
        steps2D s0 s1 dP (inds2 dP s0 s1) niter mesh2 := by
      rw [followFlows2D]
      rw [hs0', hs1']
    have hinds : ∀ c ∈ inds2 dP s0 s1, c.1 < s0 ∧ c.2 < s1 := by
      intro c hcm
      exact ((mem_inds2 dP s0 s1 c).mp hcm).1
    obtain ⟨st, hst, hr⟩ :=
      steps2D_ok s0 s1 dP hwf2 (inds2 dP s0 s1) hinds niter mesh2
        (mesh2_inRange s0 s1)
    refine ⟨st, ?_, fun c => mem_inds2 dP s0 s1 c, ?_⟩
    · rw [hff]
      exact hst
    intro c hc1 hc2 hz0 hz1
    have hnm : c ∉ inds2 dP s0 s1 := by
      rw [mem_inds2]
      push_neg
      exact fun _ => ⟨hz0, hz1⟩
    have := steps2D_untouched s0 s1 dP (inds2 dP s0 s1) niter mesh2 st hst c hnm
    rw [this]
    rfl
  · intro dP s0 s1 s2 hwf hs0 hs1 niter
    obtain ⟨hlen, hch⟩ := hwf
    have hg0 : dP.getD 0 [] ∈ dP := by
      have h3 : 0 < dP.length := by omega
      rw [List.getD_eq_get _ _ h3]
      exact List.get_mem dP _ h3
    obtain ⟨hglen, hpl⟩ := hch _ hg0
    have hs0' : (dP.getD 0 []).length = s0 := hglen
    have hpl0 : (dP.getD 0 []).headD [] ∈ dP.getD 0 [] := by
      cases hg : dP.getD 0 [] with
      | nil => rw [hg] at hglen; simp at hglen; omega
      | cons pl pls => exact List.mem_cons_self pl pls
    obtain ⟨hpllen, hrow⟩ := hpl _ hpl0
    have hs1' : ((dP.getD 0 []).headD []).length = s1 := hpllen
    have hr0 : ((dP.getD 0 []).headD []).headD [] ∈ (dP.getD 0 []).headD [] := by
      cases hg : (dP.getD 0 []).headD [] with
      | nil => rw [hg] at hpllen; simp at hpllen; omega
      | cons r rs => exact List.mem_cons_self r rs
    have hs2' : (((dP.getD 0 []).headD []).headD []).length = s2 := hrow _ hr0
    have hff : followFlows3D dP niter =
        steps3D s0 s1 s2 dP (inds3 dP s0 s1 s2) niter mesh3 := by
      rw [followFlows3D]
      rw [hs0', hs1', hs2']
    have hinds : ∀ c ∈ inds3 dP s0 s1 s2,
        c.1 < s0 ∧ c.2.1 < s1 ∧ c.2.2 < s2 := by
      intro c hcm
      exact ((mem_inds3 dP s0 s1 s2 c).mp hcm).1
    obtain ⟨st, hst, hr⟩ :=
      steps3D_ok s0 s1 s2 dP ⟨hlen, hch⟩ (inds3 dP s0 s1 s2) hinds niter mesh3
        (mesh3_inRange s0 s1 s2)
    refine ⟨st, ?_, fun c => mem_inds3 dP s0 s1 s2 c, ?_⟩
    · rw [hff]
      exact hst
    intro c hc1 hc2 hc3 hz
    have hnm : c ∉ inds3 dP s0 s1 s2 := by
      rw [mem_inds3]
      push_neg
      exact fun _ => le_of_not_lt hz
    have := steps3D_untouched s0 s1 s2 dP (inds3 dP s0 s1 s2) niter mesh3 st hst
      c hnm
    rw [this]
    rfl

theorem followFlows_active_set_witness :
    ∃ st, followFlows2D [[[0, (1 : ℚ)]], [[0, 0]]] 3 = some st ∧
      (∀ c : Nat × Nat, c ∈ inds2 [[[0, (1 : ℚ)]], [[0, 0]]] 1 2 ↔
        (c.1 < 1 ∧ c.2 < 2) ∧
        (dPval2 [[[0, (1 : ℚ)]], [[0, 0]]] 0 c.1 c.2 ≠ 0 ∨
         dPval2 [[[0, (1 : ℚ)]], [[0, 0]]] 1 c.1 c.2 ≠ 0)) ∧
      (∀ c : Nat × Nat, c.1 < 1 → c.2 < 2 →
        dPval2 [[[0, (1 : ℚ)]], [[0, 0]]] 0 c.1 c.2 = 0 →
        dPval2 [[[0, (1 : ℚ)]], [[0, 0]]] 1 c.1 c.2 = 0 →
        st c = ((c.1 : ℚ), (c.2 : ℚ))) :=
  followFlows_active_set.1 [[[0, (1 : ℚ)]], [[0, 0]]] 1 2
    ⟨[[0, (1 : ℚ)]], [[0, 0]], rfl, rfl, rfl, by decide, by decide⟩
    (by decide) 3

/-! ## DiffusionFlowEncoder: `_extend_centers` (lines 15-62) as called by
`masks_to_flows` (lines 152-175)

`masks_to_flows` extracts an instance's bounding-box pixel coordinates
shifted by +1 (lines 156-158), so every mask coordinate lies in
`[1, ly-1] × [1, lx-1]`, where `ly, lx` are the bounding-box extents
plus one (line 155).  It allocates the scratch array `T` with
`(ly+2)*(lx+2)` entries (line 169) but `_extend_centers` addresses it
with row stride `lx` (the call at line 170 passes `np.int32(lx)`).  The
scratch array is modelled as a total function `ℤ → ℚ`: every flat index
the iteration reads or writes lies inside the allocation (the largest
neighbour read is `ly*lx + lx < (ly+2)*(lx+2)` and none is negative),
so the finite array behaves exactly like the total function. -/

/-- The flat index `y*Lx + x` used throughout `_extend_centers`. -/
def flatIdx (lx : ℤ) (p : ℤ × ℤ) : ℤ := p.1 * lx + p.2

/-- `T[ymed*Lx + xmed] += 1` (line 57). -/
def injectT (c : ℤ) (T : ℤ → ℚ) : ℤ → ℚ :=
  fun i => if i = c then T i + 1 else T i

/-- The vectorized update of lines 58-61: the entry of every mask
pixel's flat index is replaced by 1/9 times the sum of the nine
flat-offset reads (the terms in source order), all evaluated in the
pre-update array (numpy fully evaluates the right-hand side before the
fancy-indexed assignment); all other entries are unchanged. -/
def relaxT (pix : List (ℤ × ℤ)) (lx : ℤ) (T : ℤ → ℚ) : ℤ → ℚ :=
  fun i =>
    (pix.find? (fun p => flatIdx lx p == i)).elim (T i) (fun p =>
      (1/9) * (T (p.1 * lx + p.2) + T ((p.1 - 1) * lx + p.2) +
        T ((p.1 + 1) * lx + p.2) +
        T (p.1 * lx + p.2 - 1) + T (p.1 * lx + p.2 + 1) +
        T ((p.1 - 1) * lx + p.2 - 1) + T ((p.1 - 1) * lx + p.2 + 1) +
        T ((p.1 + 1) * lx + p.2 - 1) + T ((p.1 + 1) * lx + p.2 + 1)))

/-- One `_extend_centers` iteration (lines 56-61): inject one unit at
the center's flat index, then the mean update. -/
def extendStep (pix : List (ℤ × ℤ)) (lx : ℤ) (c : ℤ × ℤ) (T : ℤ → ℚ) :
    ℤ → ℚ :=
  relaxT pix lx (injectT (flatIdx lx c) T)

/-- `_extend_centers(T, y, x, ymed, xmed, Lx, niter)`: `niter`
iterations of the step. -/
def extendCenters (pix : List (ℤ × ℤ)) (lx : ℤ) (c : ℤ × ℤ) :
    Nat → (ℤ → ℚ) → (ℤ → ℚ)
  | 0, T => T
  | n + 1, T => extendCenters pix lx c n (extendStep pix lx c T)

/-- `np.ptp` of a coordinate list: maximum minus minimum. -/
def ptpL (l : List ℤ) : ℤ :=
  l.foldl max (l.headD 0) - l.foldl min (l.headD 0)

/-- `niter = 2*np.int32(np.ptp(x) + np.ptp(y))` (line 168), taken over
the shifted in-box coordinates (the shift cancels in `ptp`). -/
def niterOf (pix : List (ℤ × ℤ)) : Nat :=
  (2 * (ptpL (pix.map Prod.snd) + ptpL (pix.map Prod.fst))).toNat

/-- The scratch-field computation of one instance of `masks_to_flows`
(lines 168-170): a zero-initialized field diffused by `_extend_centers`
for `niterOf` iterations, with `Lx := lx`. -/
def diffuseInstance (pix : List (ℤ × ℤ)) (lx : ℤ) (c : ℤ × ℤ) : ℤ → ℚ :=
  extendCenters pix lx c (niterOf pix) (fun _ => 0)

/-- Specification-side field update: inject one unit of value at the
center cell (spec step (a)). -/
def injF (c : ℤ × ℤ) (F : ℤ × ℤ → ℚ) : ℤ × ℤ → ℚ :=
  fun p => if p = c then F p + 1 else F p

/-- Specification-side field update: replace every mask pixel's value by
the unweighted mean of itself and its 8 grid neighbors (spec step (b));
every other cell keeps its value. -/
def meanF (pix : List (ℤ × ℤ)) (F : ℤ × ℤ → ℚ) : ℤ × ℤ → ℚ :=
  fun p =>
    if p ∈ pix then
      (1/9) * (F p + F (p.1 - 1, p.2) + F (p.1 + 1, p.2) +
        F (p.1, p.2 - 1) + F (p.1, p.2 + 1) +
        F (p.1 - 1, p.2 - 1) + F (p.1 - 1, p.2 + 1) +
        F (p.1 + 1, p.2 - 1) + F (p.1 + 1, p.2 + 1))
    else F p

/-- The specification's diffusion: iterate inject-then-mean on a 2D
field. -/
def diffuseSpec (pix : List (ℤ × ℤ)) (c : ℤ × ℤ) :
    Nat → (ℤ × ℤ → ℚ) → (ℤ × ℤ → ℚ)
  | 0, F => F
  | n + 1, F => diffuseSpec pix c n (meanF pix (injF c F))

/-- Coordinate bounds of a shifted bounding-box mask (lines 155-158). -/
def PixOK (pix : List (ℤ × ℤ)) (ly lx : ℤ) : Prop :=
  ∀ p ∈ pix, 1 ≤ p.1 ∧ p.1 ≤ ly - 1 ∧ 1 ≤ p.2 ∧ p.2 ≤ lx - 1

instance (pix : List (ℤ × ℤ)) (ly lx : ℤ) : Decidable (PixOK pix ly lx) := by
  unfold PixOK
  infer_instance

/-- The simulation invariant between the flat scratch array and the 2D
specification field: they agree on mask pixels, and both vanish
elsewhere. -/
def SimInv (pix : List (ℤ × ℤ)) (lx : ℤ) (T : ℤ → ℚ) (F : ℤ × ℤ → ℚ) :
    Prop :=
  (∀ p ∈ pix, T (flatIdx lx p) = F p) ∧
  (∀ i : ℤ, (∀ p ∈ pix, flatIdx lx p ≠ i) → T i = 0) ∧
  (∀ q : ℤ × ℤ, q ∉ pix → F q = 0)

theorem flat_inj (lx a b c d : ℤ) (hb0 : 0 ≤ b) (hb1 : b ≤ lx) (hd0 : 1 ≤ d)
    (hd1 : d ≤ lx - 1) (h : a * lx + b = c * lx + d) : a = c ∧ b = d := by
  have hlx : 2 ≤ lx := by omega
  have h1 : (a - c) * lx = d - b := by
    have : a * lx - c * lx = d - b := by omega
    linarith [sub_mul a c lx]
  have hac : a = c := by
    by_contra hne
    have h2 : 1 ≤ |a - c| := Int.one_le_abs (by omega)
    have h3 : |(a - c) * lx| = |a - c| * lx := by
      rw [abs_mul, abs_of_nonneg (by omega : (0 : ℤ) ≤ lx)]
    have h4 : lx ≤ |(a - c) * lx| := by
      rw [h3]
      nlinarith
    have h5 : |d - b| ≤ lx - 1 := abs_le.mpr ⟨by omega, by omega⟩
    rw [h1] at h4
    omega
  exact ⟨hac, by rw [hac] at h1; omega⟩

/-- A flat index of a cell in the closed neighbourhood of the mask
(second coordinate in `[0, lx]`) matches a mask pixel's flat index only
at the identical cell. -/
theorem flat_match (pix : List (ℤ × ℤ)) (ly lx : ℤ) (hpix : PixOK pix ly lx)
    (q : ℤ × ℤ) (hq0 : 0 ≤ q.2) (hq1 : q.2 ≤ lx) (r : ℤ × ℤ) (hr : r ∈ pix)
    (h : flatIdx lx q = flatIdx lx r) : q = r := by
  obtain ⟨_, _, hr2, hr3⟩ := hpix r hr
  obtain ⟨he1, he2⟩ := flat_inj lx q.1 q.2 r.1 r.2 hq0 hq1 hr2 hr3 h
  exact Prod.ext he1 he2

theorem find_flat (pix : List (ℤ × ℤ)) (ly lx : ℤ) (hpix : PixOK pix ly lx)
    (p : ℤ × ℤ) (hp : p ∈ pix) :
    pix.find? (fun r => flatIdx lx r == flatIdx lx p) = some p := by
  induction pix with
  | nil => cases hp
  | cons r rs ih =>
    rw [List.find?_cons]
    by_cases he : flatIdx lx r == flatIdx lx p
    · rw [he]
      obtain ⟨_, _, hp2, hp3⟩ :=
        hpix p hp
      obtain ⟨_, _, hr2, hr3⟩ := hpix r (List.mem_cons_self r rs)
      have heq : r = p :=
        flat_match (r :: rs) ly lx hpix r (by omega) (by omega) p hp
          (beq_iff_eq.mp he)

      rw [heq]
    · rw [Bool.not_eq_true] at he
      rw [he]
      have hpr : p ≠ r := by
        intro hcontra
        rw [hcontra] at he
        simp at he
      have hprs : p ∈ rs := by
        rcases List.mem_cons.mp hp with h | h
        · exact absurd h hpr
        · exact h
      exact ih (fun a ha => hpix a (List.mem_cons_of_mem r ha)) hprs

/-- Reading the injected scratch array at the flat index of any cell in
the closed neighbourhood of the mask yields the injected 2D field at
that cell. -/
theorem readT (pix : List (ℤ × ℤ)) (ly lx : ℤ) (c : ℤ × ℤ) (T : ℤ → ℚ)
    (F : ℤ × ℤ → ℚ) (hpix : PixOK pix ly lx) (hc : c ∈ pix)
    (hinv : SimInv pix lx T F) (q : ℤ × ℤ) (hq0 : 0 ≤ q.2) (hq1 : q.2 ≤ lx) :
    injectT (flatIdx lx c) T (flatIdx lx q) = injF c F q := by
  obtain ⟨h1, h2, h3⟩ := hinv
  by_cases hqp : q ∈ pix
  · by_cases hqc : q = c
    · subst hqc
      simp only [injectT, injF, if_pos rfl, h1 q hqp]
    · have hne : flatIdx lx q ≠ flatIdx lx c := by
        intro hcontra
        exact hqc (flat_match pix ly lx hpix q hq0 hq1 c hc hcontra)
      simp only [injectT, injF, if_neg hne, if_neg hqc, h1 q hqp]
  · have hqc : q ≠ c := fun he => hqp (he ▸ hc)
    have hne : flatIdx lx q ≠ flatIdx lx c := by
      intro hcontra
      exact hqp ((flat_match pix ly lx hpix q hq0 hq1 c hc hcontra) ▸ hc)
    simp only [injectT, injF, if_neg hne, if_neg hqc, h3 q hqp]
    exact h2 _ (fun r hr hre =>
      hqp ((flat_match pix ly lx hpix q hq0 hq1 r hr hre.symm) ▸ hr))

theorem simInv_step (pix : List (ℤ × ℤ)) (ly lx : ℤ) (c : ℤ × ℤ)
    (hpix : PixOK pix ly lx) (hc : c ∈ pix) (T : ℤ → ℚ) (F : ℤ × ℤ → ℚ)
    (hinv : SimInv pix lx T F) :
    SimInv pix lx (extendStep pix lx c T) (meanF pix (injF c F)) := by
  obtain ⟨h1, h2, h3⟩ := hinv
  refine ⟨?_, ?_, ?_⟩
  · intro p hp
    obtain ⟨hp0, hp1, hp2, hp3⟩ := hpix p hp
    have hfind := find_flat pix ly lx hpix p hp
    have hrd : ∀ q : ℤ × ℤ, 0 ≤ q.2 → q.2 ≤ lx →
        injectT (flatIdx lx c) T (flatIdx lx q) = injF c F q :=
      fun q hq0 hq1 => readT pix ly lx c T F hpix hc ⟨h1, h2, h3⟩ q hq0 hq1
    simp only [extendStep, relaxT, flatIdx] at hfind ⊢
    rw [hfind]
    simp only [Option.elim]
    have e0 := hrd p (by omega) (by omega)
    have e1 := hrd (p.1 - 1, p.2) (by omega) (by omega)
    have e2 := hrd (p.1 + 1, p.2) (by omega) (by omega)
    have e3 := hrd (p.1, p.2 - 1) (by omega) (by omega)
    have e4 := hrd (p.1, p.2 + 1) (by omega) (by omega)
    have e5 := hrd (p.1 - 1, p.2 - 1) (by omega) (by omega)
    have e6 := hrd (p.1 - 1, p.2 + 1) (by omega) (by omega)
    have e7 := hrd (p.1 + 1, p.2 - 1) (by omega) (by omega)
    have e8 := hrd (p.1 + 1, p.2 + 1) (by omega) (by omega)
    simp only [flatIdx] at e0 e1 e2 e3 e4 e5 e6 e7 e8
    have a3 : p.1 * lx + p.2 - 1 = p.1 * lx + (p.2 - 1) := by ring
    have a4 : p.1 * lx + p.2 + 1 = p.1 * lx + (p.2 + 1) := by ring
    have a5 : (p.1 - 1) * lx + p.2 - 1 = (p.1 - 1) * lx + (p.2 - 1) := by ring
    have a6 : (p.1 - 1) * lx + p.2 + 1 = (p.1 - 1) * lx + (p.2 + 1) := by ring
    have a7 : (p.1 + 1) * lx + p.2 - 1 = (p.1 + 1) * lx + (p.2 - 1) := by ring
    have a8 : (p.1 + 1) * lx + p.2 + 1 = (p.1 + 1) * lx + (p.2 + 1) := by ring
    rw [a3, a4, a5, a6, a7, a8, e0, e1, e2, e3, e4, e5, e6, e7, e8]
    simp only [meanF, if_pos hp]
  · intro i hi
    have hfind : pix.find? (fun p => flatIdx lx p == i) = none :=
      List.find?_eq_none.mpr (fun p hp => by simpa using hi p hp)
    simp only [extendStep, relaxT]
    rw [hfind]
    simp only [Option.elim]
    have hci : ¬(i = flatIdx lx c) := fun he => hi c hc he.symm
    simp only [injectT, if_neg hci]
    exact h2 i hi
  · intro q hq
    have hqc : q ≠ c := fun he => hq (he ▸ hc)
    simp only [meanF, if_neg hq, injF, if_neg hqc]
    exact h3 q hq

theorem simInv_iter (pix : List (ℤ × ℤ)) (ly lx : ℤ) (c : ℤ × ℤ)
    (hpix : PixOK pix ly lx) (hc : c ∈ pix) :
    ∀ (n : Nat) (T : ℤ → ℚ) (F : ℤ × ℤ → ℚ), SimInv pix lx T F →
      SimInv pix lx (extendCenters pix lx c n T) (diffuseSpec pix c n F) := by
  intro n
  induction n with
  | zero => exact fun T F h => h
  | succ k ih =>
    intro T F h
    simp only [extendCenters, diffuseSpec]
    exact ih _ _ (simInv_step pix ly lx c hpix hc T F h)

/-- C2: for every 2D instance mask (bounding-box pixel coordinates
shifted by +1, as produced by lines 155-158 of `masks_to_flows`), the
diffusion runs exactly `2*(ptp(x)+ptp(y))` iterations, and each
iteration first adds one unit at the center pixel and then replaces
every mask pixel's value by the unweighted mean of itself and its 8
grid neighbors of the padded bounding-box field: the flat stride-`lx`
computation of `_extend_centers` coincides on every mask pixel with the
2D neighbourhood diffusion `diffuseSpec` (each flat neighbour offset
resolves to the value of the actual adjacent cell, halo cells carrying
0). -/
theorem masksToFlows_diffusion_is_neighborhood_relaxation
    (pix : List (ℤ × ℤ)) (ly lx : ℤ) (c : ℤ × ℤ) (hpix : PixOK pix ly lx)
    (hc : c ∈ pix) :
    niterOf pix =
      (2 * (ptpL (pix.map Prod.snd) + ptpL (pix.map Prod.fst))).toNat ∧
    ∀ p ∈ pix, diffuseInstance pix lx c (flatIdx lx p) =
      diffuseSpec pix c (niterOf pix) (fun _ => 0) p := by
  refine ⟨rfl, fun p hp => ?_⟩
  exact (simInv_iter pix ly lx c hpix hc (niterOf pix) (fun _ => 0)
    (fun _ => 0) ⟨fun _ _ => rfl, fun _ _ => rfl, fun _ _ => rfl⟩).1 p hp

theorem masksToFlows_diffusion_is_neighborhood_relaxation_witness :
    PixOK [((1 : ℤ), (1 : ℤ)), (1, 2)] 2 3 ∧
    ((1 : ℤ), (1 : ℤ)) ∈ [((1 : ℤ), (1 : ℤ)), (1, 2)] ∧
    diffuseInstance [((1 : ℤ), (1 : ℤ)), (1, 2)] 3 (1, 1) (flatIdx 3 (1, 1)) =
      diffuseSpec [((1 : ℤ), (1 : ℤ)), (1, 2)] (1, 1)
        (niterOf [((1 : ℤ), (1 : ℤ)), (1, 2)]) (fun _ => 0) (1, 1) ∧
    diffuseInstance [((1 : ℤ), (1 : ℤ)), (1, 2)] 3 (1, 1) (flatIdx 3 (1, 1)) =
      11/81 :=
  ⟨by decide, by decide,
   (masksToFlows_diffusion_is_neighborhood_relaxation
     [((1 : ℤ), (1 : ℤ)), (1, 2)] 2 3 (1, 1) (by decide) (by decide)).2
     (1, 1) (by decide),
   by
     simp +decide [diffuseInstance, niterOf, ptpL, extendCenters, extendStep,
       relaxT, injectT, flatIdx, List.find?]
     norm_num⟩


/-! ## InstanceExtractor: `get_masks` (dynamics.py lines 418-566)

The embedding below is dimension-generic over `dims = len(p) ∈ {2, 3}`:
grids over the padded histogram space are flat C-order lists, positions
are integer tuples.  Floating point enters `get_masks` only through
integer-valued quantities (truncated positions, histogram counts) and
the constants `-1e-6` and `0.35`, whose exact treatment is documented at
their use sites. -/


/-- Insertion sort of naturals ascending (`np.unique` sorts its values). -/
def sortNat (l : List Nat) : List Nat := l.insertionSort (· ≤ ·)

/-- The sorted list of distinct values of `l` (`np.unique(l)`). -/
def uniqSorted (l : List Nat) : List Nat := sortNat l.dedup

/-- The index of `v` in the sorted distinct values of `l`: the number of
distinct values of `l` below `v` (`np.unique(..., return_inverse=True)`
maps every entry to this index). -/
def rankOf (l : List Nat) (v : Nat) : Nat :=
  (l.dedup.filter (fun w => w < v)).length

/-- Contiguous relabeling: replace every entry by its index in the
sorted distinct values (`_, M0 = np.unique(M0, return_inverse=True)`). -/
def renumber (l : List Nat) : List Nat := l.map (rankOf l)

theorem uniqSorted_perm (l : List Nat) : List.Perm (uniqSorted l) l.dedup :=
  List.perm_insertionSort _ _

theorem uniqSorted_nodup (l : List Nat) : (uniqSorted l).Nodup :=
  ((uniqSorted_perm l).nodup_iff).mpr l.nodup_dedup

theorem uniqSorted_sorted (l : List Nat) : (uniqSorted l).Sorted (· ≤ ·) :=
  List.sorted_insertionSort _ _

theorem uniqSorted_strict (l : List Nat) : (uniqSorted l).Pairwise (· < ·) := by
  have h1 := uniqSorted_sorted l
  have h2 := uniqSorted_nodup l
  exact (h1.and h2).imp (fun hab => lt_of_le_of_ne hab.1 hab.2)

/-- In a strictly sorted list, the number of entries below the `r`-th
entry is exactly `r`. -/
theorem countP_lt_get_sorted :
    ∀ (s : List Nat), s.Pairwise (· < ·) → ∀ (r : Nat) (hr : r < s.length),
      (s.countP (fun w => w < s.get ⟨r, hr⟩)) = r := by
  intro s
  induction s with
  | nil => intro _ r hr; cases hr
  | cons a t ih =>
    intro hp r hr
    obtain ⟨hat, ht⟩ := List.pairwise_cons.mp hp
    cases r with
    | zero =>
      have hget : (a :: t).get ⟨0, hr⟩ = a := rfl
      rw [hget, List.countP_eq_zero]
      intro b hb
      simp only [decide_eq_true_eq]
      rcases List.mem_cons.mp hb with h | h
      · omega
      · have := hat b h
        omega
    | succ k =>
      have hk : k < t.length := by
        simpa using hr
      have hget : (a :: t).get ⟨k + 1, hr⟩ = t.get ⟨k, hk⟩ := rfl
      rw [hget, List.countP_cons]
      have hmem : t.get ⟨k, hk⟩ ∈ t := t.get_mem _ hk
      have halt : decide (a < t.get ⟨k, hk⟩) = true := by
        simpa using hat _ hmem
      rw [ih ht k hk, halt]
      simp

theorem rankOf_lt (l : List Nat) (u : Nat) (hu : u ∈ l) :
    rankOf l u < l.dedup.length := by
  rw [rankOf, ← List.countP_eq_length_filter]
  have hle := List.countP_le_length (l := l.dedup) (p := fun w => decide (w < u))
  have hne : ¬(l.dedup.countP (fun w => decide (w < u)) = l.dedup.length) := by
    intro he
    have hall := List.countP_eq_length.mp he u (List.mem_dedup.mpr hu)
    simp at hall
  omega

theorem rankOf_surj (l : List Nat) (r : Nat) (hr : r < l.dedup.length) :
    ∃ u ∈ l, rankOf l u = r := by
  have hlen : (uniqSorted l).length = l.dedup.length :=
    (uniqSorted_perm l).length_eq
  have hr2 : r < (uniqSorted l).length := by omega
  refine ⟨(uniqSorted l).get ⟨r, hr2⟩, ?_, ?_⟩
  · exact List.mem_dedup.mp ((uniqSorted_perm l).mem_iff.mp
      ((uniqSorted l).get_mem _ hr2))
  · rw [rankOf, ← List.countP_eq_length_filter]
    rw [← List.Perm.countP_eq _ (uniqSorted_perm l)]
    exact countP_lt_get_sorted (uniqSorted l) (uniqSorted_strict l) r hr2

/-- The value set of `renumber l` is exactly `{0, ..., K}`. -/
theorem renumber_contiguous (l : List Nat) (hl : l ≠ []) :
    ∃ K, ∀ v, v ∈ renumber l ↔ v ≤ K := by
  have hd : l.dedup ≠ [] := by
    intro he
    exact hl ((List.dedup_eq_nil l).mp he)
  have hdl : 0 < l.dedup.length := List.length_pos.mpr hd
  refine ⟨l.dedup.length - 1, fun v => ?_⟩
  constructor
  · intro hv
    obtain ⟨u, hu, he⟩ := List.mem_map.mp hv
    have := rankOf_lt l u hu
    omega
  · intro hv
    obtain ⟨u, hu, he⟩ := rankOf_surj l v (by omega)
    exact List.mem_map.mpr ⟨u, hu, he⟩


/-- Product of a shape (number of cells). -/
def prodL (ns : List Nat) : Nat := ns.foldl (· * ·) 1

/-- C-order coordinates of flat cell `k` in a grid of shape `ns`. -/
def unflat : List Nat → Nat → List Nat
  | [], _ => []
  | n :: ns, k => (k / prodL ns) % n :: unflat ns (k % prodL ns)

/-- C-order flat index of coordinates `cs` in a grid of shape `ns`. -/
def flatOf (ns : List Nat) (cs : List Nat) : Nat :=
  (ns.zip cs).foldl (fun a nc => a * nc.1 + nc.2) 0

/-- numpy index normalization on one axis: indices in `[0, n)` are kept,
indices in `[-n, 0)` wrap around, anything else is an `IndexError`. -/
def npIdx (n : Nat) (i : Int) : Option Nat :=
  if 0 ≤ i ∧ i < (n : Int) then some i.toNat
  else if -(n : Int) ≤ i ∧ i < 0 then some (i + n).toNat
  else none

/-- The reset of non-object pixels (get_masks lines 463-471,
`p[i, ~iscell] = inds[i][~iscell]`): with an is-object mask supplied,
every non-object pixel's position is overwritten in place with its own
grid coordinate; without one, `p` is untouched.  This is the only
mutation of the caller's array in `get_masks`. -/
def updatedP (shape0 : List Nat) (p : List (List Int)) (iscell : Option (List Bool)) :
    List (List Int) :=
  match iscell with
  | none => p
  | some cells =>
    p.enum.map (fun ir =>
      ir.2.enum.map (fun jv =>
        if cells.getD jv.1 true then jv.2
        else ((unflat shape0 jv.1).getD ir.1 0 : Int)))

/-- The contents of the caller's array `p` when `get_masks` returns (the
reset above is the only write to it). -/
def getMasksFinalP (shape0 : List Nat) (p : List (List Int))
    (iscell : Option (List Bool)) : List (List Int) :=
  updatedP shape0 p iscell

/-- The per-pixel histogram coordinates: the truncated positions shifted
by `rpad` (`pflows[i] + rpad`, lines 473-474 and 540-541; bin `k` of the
padded edges holds exactly the positions with `pos + rpad = k`). -/
def tuplesOf (shape0 : List Nat) (p2 : List (List Int)) (rpad : Nat) :
    List (List Int) :=
  (List.range (prodL shape0)).map (fun j =>
    p2.map (fun ax => ax.getD j 0 + (rpad : Int)))

/-- The multi-dimensional histogram `h` (line 478) as a flat C-order
list over the padded bin grid `nbins = shape0 + 2*rpad`; positions
outside the bin range are dropped (numpy.histogramdd ignores them). -/
def histH (tuples : List (List Int)) (nbins : List Nat) : List Nat :=
  (List.range (prodL nbins)).map (fun k =>
    (tuples.filter (fun t =>
      t = (unflat nbins k).map (fun c => (c : Int)))).length)

/-- `scipy.ndimage.filters.maximum_filter1d` reflected index (default
boundary mode `reflect`, pattern `(d c b a | a b c d | d c b a)`). -/
def reflectIdx (n : Nat) (j : Int) : Nat :=
  let m := (j % (2 * (n : Int))).toNat
  if m < n then m else 2 * n - 1 - m

/-- One pass of `maximum_filter1d(…, 5, axis=i)` (line 481): each cell
becomes the maximum of the window of 5 along axis `i`, with reflected
boundaries. -/
def maxPass (nbins : List Nat) (g : List Nat) (i : Nat) : List Nat :=
  (List.range (prodL nbins)).map (fun k =>
    let cs := unflat nbins k
    let n := nbins.getD i 1
    ((List.range 5).map (fun o =>
      g.getD (flatOf nbins (cs.set i (reflectIdx n ((cs.getD i 0 : Int) + o - 2)))) 0)).foldl
      max 0)

/-- `hmax`: the separable maximum filter applied along every axis in
order (lines 479-481). -/
def hmaxOf (nbins : List Nat) (h : List Nat) (dims : Nat) : List Nat :=
  (List.range dims).foldl (maxPass nbins) h

/-- The seed bins (line 483), in C order (as `np.nonzero` returns them):
`h - hmax > -1e-6` on integer counts is exactly `hmax ≤ h`, and
`h > 10`.  The descending sort of lines 484-487 rebinds only the loop
variable `s` and leaves `seeds` unchanged, so it is omitted. -/
def seedsOf (nbins h hmax : List Nat) : List (List Int) :=
  ((List.range (prodL nbins)).filter (fun k =>
    hmax.getD k 0 ≤ h.getD k 0 ∧ 10 < h.getD k 0)).map
    (fun k => (unflat nbins k).map (fun c => (c : Int)))

/-- The `expand` offsets: `np.nonzero(np.ones((3,)*dims))`, all tuples
over `{0,1,2}` in C order. -/
def expandOffs (dims : Nat) : List (List Int) :=
  (List.range (3 ^ dims)).map (fun k =>
    (unflat (List.replicate dims 3) k).map (fun c => (c : Int)))

/-- A (possibly negative) histogram-space tuple normalized to grid
coordinates with numpy index semantics (`none` = `IndexError`). -/
def normTup (nbins : List Nat) (t : List Int) : Option (List Nat) :=
  (nbins.zip t).mapM (fun nc => npIdx nc.1 nc.2)

/-- Lookup `h[newpix]` with numpy index semantics. -/
def hLookup (nbins : List Nat) (h : List Nat) (t : List Int) : Option Nat :=
  (normTup nbins t).map (fun cs => h.getD (flatOf nbins cs) 0)

/-- One region-growth round for one seed (lines 507-529): expand the
footprint by all `3^dims` offsets minus one (offset-major, then point,
matching the flattened `epix`), read `h` at every candidate (the
in-bounds filter `iin` of lines 513-522 is computed but never applied —
the `for p in newpix: p = p[iin]` loop rebinds only its loop variable —
so negative candidates wrap and candidates beyond the upper bound raise
`IndexError`), and keep the candidates with `h > 2` (duplicates kept). -/
def growOnce (nbins : List Nat) (h : List Nat) (dims : Nat)
    (f : List (List Int)) : Option (List (List Int)) :=
  let cands := (expandOffs dims).flatMap (fun e =>
    f.map (fun pt => (e.zip pt).map (fun ep => ep.1 + ep.2 - 1)))
  (cands.mapM (hLookup nbins h)).map (fun vals =>
    ((cands.zip vals).filterMap (fun cv =>
      if 2 < cv.2 then some cv.1 else none)))

/-- The 5 region-growth rounds over all seeds (line 501: outer loop over
rounds, inner loop over seeds). -/
def growAll (nbins : List Nat) (h : List Nat) (dims : Nat) :
    Nat → List (List (List Int)) → Option (List (List (List Int)))
  | 0, fs => some fs
  | n + 1, fs =>
    (fs.mapM (growOnce nbins h dims)).bind (growAll nbins h dims n)

/-- The label of a histogram-space cell after the rasterization
`M[pix[k]] = 1+k` in seed order (lines 534-537): the last seed whose
footprint covers the cell wins; cells covered by no footprint are 0. -/
def rasterLabel (nbins : List Nat) (foots : List (List (List Int)))
    (cs : List Nat) : Nat :=
  (((foots.enum).filter (fun kf =>
    kf.2.any (fun t => normTup nbins t == some cs))).map
    (fun kf => kf.1 + 1)).getLastD 0

/-- `M0 = M[tuple(pflows)]` (line 546): map every pixel's padded
position to its histogram-space label (numpy index semantics). -/
def readout (nbins : List Nat) (foots : List (List (List Int)))
    (tuples : List (List Int)) : Option (List Nat) :=
  tuples.mapM (fun t => (normTup nbins t).map (rasterLabel nbins foots))

/-- The big-mask removal (lines 547-552): `counts` are the counts of the
sorted distinct values of `M0`; every *position* `i` with
`counts[i] > 0.35*shape0[0]*shape0[1]` has the *value* `i` zeroed (the
source compares against positions of `np.unique`, not label values).
`counts > 0.35*s0*s1` on integer counts is modelled as
`20*counts > 7*s0*s1`; the float64 constant `0.35` is minutely below
7/20, so the two can differ only when `20*counts = 7*s0*s1` exactly,
which no claim settled here depends on. -/
def removeBig (s0 s1 : Nat) (m : List Nat) : List Nat :=
  let uniq := uniqSorted m
  let bigIdx := (List.range uniq.length).filter (fun i =>
    7 * s0 * s1 < 20 * (m.filter (fun v => v = uniq.getD i 0)).length)
  bigIdx.foldl (fun cur i => cur.map (fun v => if v = i then 0 else v)) m

/-- The flow-consistency removal of `remove_bad_flow_masks` (lines
384-416, 561-562): `badi = 1 + nonzero(merrors > threshold)`, labels in
`badi` are zeroed.  The external `metrics.flow_error` is the parameter
producing `merrors` from the current label list. -/
def badFilter (thr : Rat) (merrs : List Rat) (m : List Nat) : List Nat :=
  let badi := ((List.range merrs.length).filter (fun i =>
    thr < merrs.getD i 0)).map (fun i => i + 1)
  m.map (fun v => if v ∈ badi then 0 else v)

/-- The tail of `get_masks` after `M0` is read out (lines 547-566):
big-mask removal, contiguous renumbering, and, when a threshold > 0 and
a flow field are supplied, the flow-consistency filter followed by a
second renumbering. -/
def finishMasks (s0 s1 : Nat) (flowErrs : Option (List Nat → List Rat))
    (threshold : Option Rat) (m0 : List Nat) : List Nat :=
  let m2 := renumber (removeBig s0 s1 m0)
  match threshold, flowErrs with
  | some t, some fe => if 0 < t then renumber (badFilter t (fe m2) m2) else m2
  | _, _ => m2

/-- `get_masks` (dynamics.py lines 418-566).  `p` holds the particles'
truncated integer positions, one flat C-order list per axis (get_masks
reads the float positions only through `astype('int32')` truncation,
and the is-object reset writes integer grid coordinates, so truncation
commutes with it).  `flowErrs` abstracts the external
`metrics.flow_error`; `flowErrs = none` models `flows=None`.  The
embedding covers `dims ∈ {2, 3}`, the dimensionalities the source
supports (with other `dims` the source raises on any input with a seed,
or on any input at all when `iscell` is given).  `none` models a raised
`IndexError` (a region-growth candidate beyond the histogram bound, or
a position outside `[-rpad, shape+rpad-1]` at the `M[tuple(pflows)]`
readout). -/
def nbinsOf (shape0 : List Nat) (rpad : Nat) : List Nat :=
  shape0.map (fun n => n + 2 * rpad)

/-- The histogram of the (reset, truncated, padded) positions. -/
def hOf (shape0 : List Nat) (p : List (List Int)) (iscell : Option (List Bool))
    (rpad : Nat) : List Nat :=
  histH (tuplesOf shape0 (updatedP shape0 p iscell) rpad) (nbinsOf shape0 rpad)

/-- Seed detection followed by the 5 growth rounds. -/
def footsOf (shape0 : List Nat) (p : List (List Int))
    (iscell : Option (List Bool)) (rpad : Nat) :
    Option (List (List (List Int))) :=
  growAll (nbinsOf shape0 rpad) (hOf shape0 p iscell rpad) p.length 5
    ((seedsOf (nbinsOf shape0 rpad) (hOf shape0 p iscell rpad)
      (hmaxOf (nbinsOf shape0 rpad) (hOf shape0 p iscell rpad) p.length)).map
      (fun s => [s]))

def getMasks (shape0 : List Nat) (p : List (List Int))
    (iscell : Option (List Bool)) (rpad : Nat)
    (flowErrs : Option (List Nat → List Rat)) (threshold : Option Rat) :
    Option (List Nat) :=
  if p.length = 2 ∨ p.length = 3 then
    ((footsOf shape0 p iscell rpad).bind
      (fun foots => readout (nbinsOf shape0 rpad) foots
        (tuplesOf shape0 (updatedP shape0 p iscell) rpad))).map
      (finishMasks (shape0.getD 0 0) (shape0.getD 1 0) flowErrs threshold)
  else none



theorem mapM_some_length {α β : Type} (f : α → Option β) :
    ∀ (l : List α) (l2 : List β), l.mapM f = some l2 → l2.length = l.length := by
  intro l
  induction l with
  | nil =>
    intro l2 h
    simp only [List.mapM_nil] at h
    cases h
    rfl
  | cons a t ih =>
    intro l2 h
    rw [List.mapM_cons] at h
    cases hf : f a with
    | none => rw [hf] at h; simp at h
    | some b =>
      rw [hf] at h
      cases ht : t.mapM f with
      | none => rw [ht] at h; simp at h
      | some bs =>
        rw [ht] at h
        simp at h
        rw [← h]
        simp [ih bs ht]

theorem foldMap_length (idx : List Nat) :
    ∀ (l : List Nat),
      (idx.foldl (fun cur i => cur.map (fun v => if v = i then 0 else v))
        l).length = l.length := by
  induction idx with
  | nil => intro l; rfl
  | cons i it ih =>
    intro l
    rw [List.foldl_cons, ih]
    simp

theorem removeBig_length (s0 s1 : Nat) (m : List Nat) :
    (removeBig s0 s1 m).length = m.length := foldMap_length _ m

theorem finishMasks_renumber (s0 s1 : Nat)
    (fe : Option (List Nat → List Rat)) (thr : Option Rat) (m0 : List Nat) :
    ∃ x, finishMasks s0 s1 fe thr m0 = renumber x ∧ x.length = m0.length := by
  have hrem := removeBig_length s0 s1 m0
  cases thr with
  | none =>
    cases fe with
    | none => exact ⟨removeBig s0 s1 m0, rfl, hrem⟩
    | some f => exact ⟨removeBig s0 s1 m0, rfl, hrem⟩
  | some t =>
    cases fe with
    | none => exact ⟨removeBig s0 s1 m0, rfl, hrem⟩
    | some f =>
      by_cases h : 0 < t
      · refine ⟨badFilter t (f (renumber (removeBig s0 s1 m0)))
          (renumber (removeBig s0 s1 m0)), ?_, ?_⟩
        · simp only [finishMasks, if_pos h]
        · simp [badFilter, renumber, hrem]
      · exact ⟨removeBig s0 s1 m0, by simp only [finishMasks, if_neg h], hrem⟩

/-- C3: for every input over a nonempty grid, the LabelMap returned by
`get_masks` has label set exactly `{0, 1, ..., K}` for some `K ≥ 0`,
both when the flow-consistency filtering runs (a positive threshold and
a flow-error function are supplied) and when it does not: either branch
ends with the `np.unique(..., return_inverse=True)` renumbering of a
nonempty list. -/
theorem getMasks_labels_contiguous (shape0 : List Nat) (p : List (List Int))
    (iscell : Option (List Bool)) (rpad : Nat)
    (flowErrs : Option (List Nat → List Rat)) (threshold : Option Rat)
    (m : List Nat) (hnp : 0 < prodL shape0)
    (h : getMasks shape0 p iscell rpad flowErrs threshold = some m) :
    ∃ K, ∀ v, v ∈ m ↔ v ≤ K := by
  rw [getMasks] at h
  split at h
  · obtain ⟨m0, hm0, hg⟩ := Option.map_eq_some'.mp h
    obtain ⟨foots, hfo, hro⟩ := Option.bind_eq_some.mp hm0
    have hlen : m0.length = prodL shape0 := by
      have h2 := mapM_some_length _ _ _ hro
      rw [h2, tuplesOf, List.length_map, List.length_range]
    obtain ⟨x, hx, hxl⟩ := finishMasks_renumber (shape0.getD 0 0)
      (shape0.getD 1 0) flowErrs threshold m0
    rw [← hg, hx]
    apply renumber_contiguous
    intro he
    rw [he] at hxl
    simp at hxl
    omega
  · cases h




/-- C5 (amended): `get_masks` leaves the ParticleSet `p` unchanged when
`iscell` is `None`, and leaves every object pixel's entries unchanged;
but when an is-object mask is supplied it overwrites, in place, each
non-object pixel's coordinates with that pixel's own grid coordinate
(lines 463-471). -/
theorem getMasksFinalP_characterization :
    (∀ (shape0 : List Nat) (p : List (List Int)),
      getMasksFinalP shape0 p none = p) ∧
    (∀ (shape0 : List Nat) (p : List (List Int)) (cells : List Bool)
      (i j : Nat), i < p.length → j < (p.getD i []).length →
      ((getMasksFinalP shape0 p (some cells)).getD i []).getD j 0 =
        if cells.getD j true then (p.getD i []).getD j 0
        else ((unflat shape0 j).getD i 0 : Int)) := by
  constructor
  · intro shape0 p
    rfl
  · intro shape0 p cells i j hi hj
    have hpi : p.getD i [] = p[i] := List.getD_eq_getElem p [] hi
    rw [hpi] at hj
    have h1 : i < (p.enum.map (fun ir => ir.2.enum.map (fun jv =>
        if cells.getD jv.1 true then jv.2
        else ((unflat shape0 jv.1).getD ir.1 0 : Int)))).length := by
      simpa using hi
    simp only [getMasksFinalP, updatedP]
    rw [List.getD_eq_getElem _ _ h1, List.getElem_map, List.getElem_enum]
    have h2 : j < ((p[i]).enum.map (fun jv =>
        if cells.getD jv.1 true then jv.2
        else ((unflat shape0 jv.1).getD i 0 : Int))).length := by
      simpa using hj
    rw [List.getD_eq_getElem _ _ h2, List.getElem_map, List.getElem_enum]
    rw [hpi, List.getD_eq_getElem _ _ hj]

theorem getMasksFinalP_characterization_witness :
    getMasksFinalP [1, 2] [[5, 7], [0, 3]] none = [[5, 7], [0, 3]] ∧
    ((getMasksFinalP [1, 2] [[5, 7], [0, 3]] (some [true, false])).getD 1
        []).getD 1 0 =
      (if [true, false].getD 1 true then
        (([[5, 7], [0, 3]] : List (List Int)).getD 1 []).getD 1 0
       else ((unflat [1, 2] 1).getD 1 0 : Int)) :=
  ⟨getMasksFinalP_characterization.1 [1, 2] [[5, 7], [0, 3]],
   getMasksFinalP_characterization.2 [1, 2] [[5, 7], [0, 3]] [true, false] 1 1
     (by decide) (by decide)⟩

/-- C5 (counterexample): `get_masks` does not treat the ParticleSet as
read-only: with an is-object mask containing a `False` at a pixel whose
recorded position differs from its grid coordinate, the caller's array
holds different values after the call than before it. -/
theorem getMasks_mutates_particle_positions :
    getMasksFinalP [1, 2] [[0, 0], [0, 0]] (some [true, false]) ≠
      [[0, 0], [0, 0]] := by decide

set_option maxRecDepth 40000 in
theorem getMasks_labels_contiguous_witness :
    0 < prodL [1, 1] ∧
    getMasks [1, 1] [[0], [0]] none 1 none none = some [0] ∧
    ∃ K, ∀ v, v ∈ ([0] : List Nat) ↔ v ≤ K :=
  ⟨by decide, by decide,
   getMasks_labels_contiguous [1, 1] [[0], [0]] none 1 none none [0]
     (by decide) (by decide)⟩

/-- The particle positions of the C1 failing input on a 5×5 grid:
11 particles converged at (2,2), 11 at (2,3), and one each at (0,0),
(0,4), (4,0).  Both histogram bins (2,2) and (2,3) hold 11 > 10 counts
and are window-5 local maxima, so both become seeds; their grown
footprints coincide, so the later seed's rasterization overwrites the
earlier one's everywhere and label 1 never occurs in `M0`. -/
def pC1 : List (List Int) :=
  [List.replicate 22 2 ++ [0, 0, 4],
   List.replicate 11 2 ++ List.replicate 11 3 ++ [0, 4, 0]]

set_option maxRecDepth 40000 in
/-- C1 (failing input evaluation): on `pC1` the pruning step of
`get_masks` leaves an instance occupying 22 of the 25 grid pixels (88%
> 35%).  `M0` holds only the labels {0, 2}, so `np.unique` counts are
`[3, 22]`; the removal loop then zeroes the *position* `1` of the
oversized count as a label value — a no-op, since label 1 is absent —
and label 2 survives to be renumbered to 1. -/
theorem getMasks_oversized_label_survives :
    getMasks [5, 5] pC1 none 2 none none =
      some (List.replicate 22 1 ++ [0, 0, 0]) ∧
    20 * ((List.replicate 22 1 ++ ([0, 0, 0] : List Nat)).filter
      (fun v => v = 1)).length > 7 * prodL [5, 5] :=
  ⟨by decide, by decide⟩

end Cellpose
